import Mathlib

/-!
Verification development for the replica discovery and registration subsystem
of `monolith/agent_service/replica_manager.py`.

The Python module is shallowly embedded below: every stateful method becomes a
pure function on explicit state, ZooKeeper (kazoo) side effects become explicit
association-list states, and exceptions become `Option`/`Except` results.
Supporting classes that the module imports from files not present in the
source tree (`ReplicaMeta`, `AgentConfig`, `ZKPath`, the enums) are modelled
from the specification; every such definition is marked in its doc comment.
-/

namespace ReplicaMgr

/-! ### String helpers

Python string operations used by the module (`str.split(':')`, substring `in`,
`int(s)`, `str(n)`, `f'{i:011d}'`, `os.path` joins) are embedded over
`List Char` so that all of them evaluate inside the kernel. -/

/-- Characters of `s` strictly before the first occurrence of `sep`;
embeds Python `s.split(sep)[0]`. -/
def headBefore (sep : Char) (cs : List Char) : List Char :=
  cs.takeWhile (fun c => c ≠ sep)

/-- Splits a character list on a separator character; embeds Python
`s.split(sep)` (adjacent separators yield empty components, as in Python). -/
def charsSplit (sep : Char) : List Char → List (List Char)
  | [] => [[]]
  | c :: cs =>
    match charsSplit sep cs with
    | [] => if c = sep then [[], []] else [[c]]
    | seg :: rest => if c = sep then [] :: seg :: rest else (c :: seg) :: rest

/-- Splits a string on `/`, returning the path segments. -/
def splitSlash (s : String) : List String :=
  (charsSplit '/' s.data).map fun cs => String.mk cs

/-- Splits a string on `:`. -/
def splitColon (s : String) : List String :=
  (charsSplit ':' s.data).map fun cs => String.mk cs

/-- Boolean list-prefix test used by the substring test below. -/
def isPrefixL : List Char → List Char → Bool
  | [], _ => true
  | _ :: _, [] => false
  | a :: as, b :: bs => a = b && isPrefixL as bs

/-- Boolean substring containment on character lists. -/
def containsL (needle : List Char) : List Char → Bool
  | [] => isPrefixL needle []
  | b :: bs => isPrefixL needle (b :: bs) || containsL needle bs

/-- Embeds the Python substring test `needle in hay`. -/
def strContains (needle hay : String) : Bool :=
  containsL needle.data hay.data

/-- Embeds Python `int(s)` on a nonnegative decimal literal: leading zeros are
ignored and the numeric value is returned. -/
def parseNatDigits (s : String) : Nat :=
  s.data.foldl (fun n c => n * 10 + (c.toNat - 48)) 0

/-- Embeds Python `str(int(b))`: the canonical decimal form of a node
basename, with leading zeros stripped. -/
def canon (s : String) : String :=
  toString (parseNatDigits s)

/-- Embeds the Python format `f'{i:011d}'` (zero-pad to width 11). -/
def fmt011 (i : Int) : String :=
  if i < 0 then
    let s := toString (-i)
    String.mk (('-' :: List.replicate (10 - s.length) '0') ++ s.data)
  else
    let s := toString i
    String.mk (List.replicate (11 - s.length) '0' ++ s.data)

/-! ### Data model

The classes below are imported by `replica_manager.py` from
`agent_service/utils.py`, `agent_service/data_def.py` and generated protobuf
modules, none of which are in the source tree; they are modelled from the
specification (sections 3 and 6). -/

/-- Modelled from the spec: the health-state enum (`ModelState` in
`agent_service/utils.py`, absent from the source tree): UNKNOWN, AVAILABLE,
UNAVAILABLE; AVAILABLE is the only state eligible for address resolution. -/
inductive ModelState
  | UNKNOWN
  | AVAILABLE
  | UNAVAILABLE
deriving DecidableEq

/-- Modelled from the spec: `ReplicaMeta` (`agent_service/data_def.py`, absent
from the source tree): grpc v4/v6 addresses, alternate-transport (archon)
v4/v6 addresses, and a health state.  The byte codec is a faithful round-trip
(spec section 8), so node payloads are modelled directly as `ReplicaMeta`
values, with `none` standing for a `None` or empty byte payload. -/
structure ReplicaMeta where
  address : String
  address_ipv6 : String
  archon_address : String
  archon_address_ipv6 : String
  stat : ModelState
deriving DecidableEq

/-- Modelled from the spec: the address family selector
(`native_training/net_utils.py`, absent from the source tree). -/
inductive AddressFamily
  | IPV4
  | IPV6
deriving DecidableEq

/-- Modelled from the spec: `ReplicaMeta.get_address` projects a record to an
address string, choosing grpc vs alternate transport and v4 vs v6 per
configuration (spec section 4.1, query projection). -/
def ReplicaMeta.get_address (m : ReplicaMeta) (use_archon : Bool)
    (family : AddressFamily) : String :=
  if use_archon then
    if family = AddressFamily.IPV6 then m.archon_address_ipv6 else m.archon_address
  else
    if family = AddressFamily.IPV6 then m.address_ipv6 else m.address

/-- Modelled from the spec: the deployment-type enum (`DeployType` in
`agent_service/utils.py`, absent from the source tree). -/
inductive DeployType
  | MIXED
  | ENTRY
  | PS
  | DENSE
deriving DecidableEq

/-- Modelled from the spec: the proto `ServerType` enum
(`agent_service/agent_service_pb2`, absent from the source tree);
`ServerType.Name(st).lower()` yields the strings below. -/
inductive ServerType
  | ENTRY
  | PS
  | DENSE
deriving DecidableEq

/-- Embeds `ServerType.Name(server_type).lower()`. -/
def ServerType.nameLower : ServerType → String
  | .ENTRY => "entry"
  | .PS => "ps"
  | .DENSE => "dense"

/-- Modelled from the spec: the fields of `AgentConfig`
(`agent_service/utils.py`, absent from the source tree) that
`replica_manager.py` reads.  `schedule` models the caller-supplied
`get_server_schedule_iter(server_type)` iterator over task indices owned by
this shard for the shard's server type (spec section 4.1). -/
structure AgentConfig where
  bzid : String
  base_name : String
  dc_aware : Bool
  dense_alone : Bool
  deploy_type : DeployType
  num_ps : Nat
  num_shard : Nat
  shard_id : Nat
  replica_id : Int
  idc : Option String
  cluster : Option String
  tfs_entry_port : Nat
  tfs_entry_archon_port : Nat
  tfs_ps_port : Nat
  tfs_ps_archon_port : Nat
  tfs_port_grpc : Nat
  tfs_dense_port : Nat
  tfs_dense_archon_port : Nat
  schedule : List Nat
deriving DecidableEq

/-- Modelled from the spec: `AgentConfig.path_prefix`, the root registration
path `/<bzid>/service/<base_name>[/<idc>:<cluster>]` (spec section 6). -/
def AgentConfig.rootPath (conf : AgentConfig) : String :=
  let base := "/" ++ conf.bzid ++ "/service/" ++ conf.base_name
  if conf.dc_aware then
    base ++ "/" ++ conf.idc.getD "" ++ ":" ++ conf.cluster.getD ""
  else base

/-- Modelled from the spec: the parsed view of a task path that the `ZKPath`
class (`agent_service/utils.py`, absent from the source tree) exposes.
`location` is the `idc:cluster` segment and `task` the `server_type:index`
segment. -/
structure ZKPathView where
  serverType : String
  index : String
  idc : Option String
  cluster : Option String
  location : String
  task : String
deriving DecidableEq

/-- Modelled from the spec: parsing a task path of the form
`/<bzid>/service/<base_name>[/<idc>:<cluster>]/<server_type>:<task_index>`
into its `ZKPath` accessors (spec sections 3 and 6). -/
def parseZKPath (path : String) : ZKPathView :=
  match splitSlash path with
  | ["", _bzid, _svc, _base, ic, st_idx] =>
    let icParts := splitColon ic
    let stParts := splitColon st_idx
    { serverType := stParts.headD ""
      index := (stParts.drop 1).headD ""
      idc := some (icParts.headD "")
      cluster := some ((icParts.drop 1).headD "")
      location := ic
      task := st_idx }
  | ["", _bzid, _svc, _base, st_idx] =>
    let stParts := splitColon st_idx
    { serverType := stParts.headD ""
      index := (stParts.drop 1).headD ""
      idc := none
      cluster := none
      location := ""
      task := st_idx }
  | _ =>
    { serverType := "", index := "", idc := none, cluster := none,
      location := "", task := "" }

/-- Modelled from the spec: `ZKPath.ship_in(idc, cluster)`, the locality
membership test; absent filters are wildcards (spec section 3). -/
def ZKPathView.ship_in (zp : ZKPathView) (idc cluster : Option String) : Bool :=
  (idc.isNone || zp.idc == idc) && (cluster.isNone || zp.cluster == cluster)

/-! ### Association lists

Python `dict`s are embedded as association lists in insertion order:
assignment replaces in place or appends at the end, `del` removes the
binding, lookup finds the (unique) binding. -/

/-- Lookup in an association list (Python `d[k]` / `d.get(k)`). -/
def alookup {κ α : Type} [DecidableEq κ] : List (κ × α) → κ → Option α
  | [], _ => none
  | (k', v) :: rest, k => if k' = k then some v else alookup rest k

/-- Assignment `d[k] = v`: replace the binding in place, or append. -/
def aupsert {κ α : Type} [DecidableEq κ] : List (κ × α) → κ → α → List (κ × α)
  | [], k, v => [(k, v)]
  | (k', v') :: rest, k, v =>
    if k' = k then (k, v) :: rest else (k', v') :: aupsert rest k v

/-- Deletion `del d[k]`: remove the binding for `k`. -/
def aerase {κ α : Type} [DecidableEq κ] : List (κ × α) → κ → List (κ × α)
  | [], _ => []
  | (k', v') :: rest, k => if k' = k then rest else (k', v') :: aerase rest k

/-- Keys of an association list are pairwise distinct (true of every Python
dict, maintained by the embedding). -/
def keysND {κ α : Type} [DecidableEq κ] (m : List (κ × α)) : Prop :=
  (m.map Prod.fst).Nodup

instance {κ α : Type} [DecidableEq κ] (m : List (κ × α)) :
    Decidable (keysND m) := by
  unfold keysND; infer_instance

/-! ### The membership cache and the data-watch callback

`ReplicaWatcher.replicas` is a dict from task path to a dict from replica id
(canonical decimal string) to `ReplicaMeta`; both dict layers are embedded as
association lists.  The data-watch callback `ReplicaWatcher._get_data_watch`
(replica_manager.py lines 145-185) becomes a pure function from the watched
path (split as dirname/basename), the delivered payload and event, and the
current cache to an `Option Cache`; `none` models an uncaught Python
exception (the `KeyError` reachable on a CHANGED/NONE event for an unknown
task path). -/

abbrev TaskMap := List (String × ReplicaMeta)

abbrev Cache := List (String × TaskMap)

/-- The kazoo `EventType` values a data watch can deliver. -/
inductive EventType
  | CREATED
  | DELETED
  | CHANGED
  | NONE_EV
  | CHILD
deriving DecidableEq

/-- Joint lookup `replicas[task_path][rnode]`. -/
def cacheGet (c : Cache) (tp r : String) : Option ReplicaMeta :=
  match alookup c tp with
  | some tm => alookup tm r
  | none => none

/-- Embeds lines 163-169 for the upsert branches: assign into the task map if
the task path exists, else create a fresh singleton task map. -/
def cacheUpsert (c : Cache) (tp r : String) (m : ReplicaMeta) : Cache :=
  match alookup c tp with
  | some tm => aupsert c tp (aupsert tm r m)
  | none => aupsert c tp [(r, m)]

/-- Embeds lines 170-173 (first half of the DELETED branch): drop the
replica entry if present. -/
def cacheDelete1 (c : Cache) (tp r : String) : Cache :=
  match alookup c tp with
  | some tm => if (alookup tm r).isSome then aupsert c tp (aerase tm r) else c
  | none => c

/-- Embeds lines 174-176 (second half of the DELETED branch): drop the
task-path key if its map is empty. -/
def cacheDelete2 (c : Cache) (tp : String) : Cache :=
  match alookup c tp with
  | some tm => if tm.isEmpty then aerase c tp else c
  | none => c

/-- Embeds lines 170-176 (the DELETED branch): drop the replica entry if
present, then drop the task-path key if its map became empty. -/
def cacheDelete (c : Cache) (tp r : String) : Cache :=
  cacheDelete2 (cacheDelete1 c tp r) tp

/-- No task-path key maps to an empty replica dict (the invariant that a
task-path key is removed once its last replica entry is deleted). -/
def noEmptyP (c : Cache) : Prop :=
  ∀ tp tm, alookup c tp = some tm → tm ≠ []

/-- Embeds the second `with self._lock` block of the data-watch callback
(lines 163-183), dispatching on the delivered event type.  A CHANGED or NONE
event for a task path absent from the cache raises `KeyError` in Python,
modelled as `none`. -/
def applyEventLocked (c : Cache) (tp r : String) (meta : ReplicaMeta)
    (event : Option EventType) : Option Cache :=
  match event with
  | none => some (cacheUpsert c tp r meta)
  | some .CREATED => some (cacheUpsert c tp r meta)
  | some .DELETED => some (cacheDelete c tp r)
  | some .CHANGED =>
    match alookup c tp with
    | some tm => some (aupsert c tp (aupsert tm r meta))
    | none => none
  | some .NONE_EV =>
    match alookup c tp with
    | some tm =>
      some (aupsert c tp (aupsert tm r { meta with stat := ModelState.UNKNOWN }))
    | none => none
  | some .CHILD => some c

/-- Embeds the whole data-watch callback (lines 145-185).  `tp` and `base`
are `os.path.dirname(path)` and `os.path.basename(path)` of the watched
replica path; `data = none` models a `None` or empty byte payload, and
`data = some m` a payload deserializing to `m`.  On an empty payload with a
cached entry, the callback mutates the cached record in place (the shared
object), which the embedding reflects by writing the UNKNOWN-stated record
back before dispatching on the event. -/
def data_watch (tp base : String) (data : Option ReplicaMeta)
    (event : Option EventType) (c : Cache) : Option Cache :=
  match data with
  | none =>
    match alookup c tp with
    | none => some c
    | some tm =>
      match alookup tm (canon base) with
      | none => some c
      | some m0 =>
        applyEventLocked
          (aupsert c tp
            (aupsert tm (canon base) { m0 with stat := ModelState.UNKNOWN }))
          tp (canon base) { m0 with stat := ModelState.UNKNOWN } event
  | some m => applyEventLocked c tp (canon base) m event

/-! ### Reconciliation sweep (`ReplicaWatcher._poll`, lines 187-271)

The sweep body is split into its pure pieces: listing the tree and building
the fresh snapshot (lines 192-218), computing the disappeared paths and the
set needing re-registration (lines 220-251), and re-creating those nodes with
a swallowed `NodeExistsError` (lines 255-267). -/

/-- The ZooKeeper tree restricted to replica nodes, as path to payload. -/
abbrev ZkTree := List (String × ReplicaMeta)

/-- Embeds lines 207-218: build the fresh snapshot from the listed tree.
`listing` pairs each task segment (possibly `idc:cluster/task` when locality
aware) with its replica children and their read payloads (`none` when
`zk.get` returned no value); each replica is keyed by `str(int(replica))`. -/
def buildTaskMapStep (tm : TaskMap) (rv : String × Option ReplicaMeta) :
    TaskMap :=
  match rv.2 with
  | some m => aupsert tm (canon rv.1) m
  | none => tm

def buildTaskMap (reps : List (String × Option ReplicaMeta)) : TaskMap :=
  reps.foldl buildTaskMapStep []

/-- One step of the task-level fold: `replicas_tmp[task_path] = {...}`. -/
def buildSnapshotStep (root : String) (acc : Cache)
    (tl : String × List (String × Option ReplicaMeta)) : Cache :=
  aupsert acc (root ++ "/" ++ tl.1) (buildTaskMap tl.2)

/-- Embeds lines 207-218 at the task level: `replicas_tmp[task_path] = {...}`
for each listed task under the watcher root (note an empty task still gets an
entry, as in the source). -/
def buildSnapshot (root : String)
    (listing : List (String × List (String × Option ReplicaMeta))) : Cache :=
  listing.foldl (buildSnapshotStep root) []

/-- Embeds lines 221-229: flatten a cache into `os.path.join(task, replica)`
keys paired with their records. -/
def flattenPaths : Cache → List (String × ReplicaMeta)
  | [] => []
  | (task, replicas) :: rest =>
    (replicas.map fun rm => (task ++ "/" ++ rm.1, rm.2)) ++ flattenPaths rest

/-- Embeds lines 231-238: the server type and (grpc, archon) ports this
process would re-register with, by deployment type; `none` models
`server_type = None`. -/
def serverTypePorts (conf : AgentConfig) : Option (String × Nat × Nat) :=
  if conf.deploy_type = DeployType.MIXED ∨ conf.deploy_type = DeployType.PS then
    some ("ps", conf.tfs_port_grpc, conf.tfs_ps_archon_port)
  else if conf.deploy_type = DeployType.DENSE then
    some ("dense", conf.tfs_dense_port, conf.tfs_dense_archon_port)
  else none

/-- The f-string `f'/{server_type}:{i}/{self._conf.replica_id}'` of line 244. -/
def patternStr (st : String) (i : Nat) (rid : Int) : String :=
  "/" ++ st ++ ":" ++ toString i ++ "/" ++ toString rid

/-- Embeds `f"{meta.address.split(':')[0]}:{port}"` (lines 246-249): keep the
characters before the first colon and replace the rest with the port. -/
def rewritePort (addr : String) (port : Nat) : String :=
  String.mk (headBefore ':' addr.data) ++ ":" ++ toString port

/-- Embeds the four address rewrites of lines 246-249. -/
def rewriteMeta (m : ReplicaMeta) (port_grpc port_archon : Nat) : ReplicaMeta :=
  { m with
    address := rewritePort m.address port_grpc
    address_ipv6 := rewritePort m.address_ipv6 port_grpc
    archon_address := rewritePort m.archon_address port_archon
    archon_address_ipv6 := rewritePort m.archon_address_ipv6 port_archon }

/-- Embeds line 230: `set(old_paths) - set(new_paths)`, the disappeared
paths, in the old cache's flattening order (Python iterates the set in
unspecified order; membership is the same). -/
def toRemovedOf (oldC newC : Cache) : List (String × ReplicaMeta) :=
  (flattenPaths oldC).filter fun pm =>
    !((flattenPaths newC).any fun qn => qn.1 == pm.1)

/-- The body of the inner `for replica in to_removed_replicas` loop of lines
243-250: on a substring match of the pattern for scheduled index `i`, store
the port-rewritten record under the disappeared path. -/
def pollStep (st : String) (rid : Int) (pg pa : Nat) (i : Nat)
    (acc : List (String × ReplicaMeta)) (pm : String × ReplicaMeta) :
    List (String × ReplicaMeta) :=
  if strContains (patternStr st i rid) pm.1 then
    aupsert acc pm.1 (rewriteMeta pm.2 pg pa)
  else acc

/-- The double loop of lines 242-250: for every scheduled task index, scan
the disappeared paths. -/
def pollSchedFold (st : String) (rid : Int) (pg pa : Nat)
    (toR : List (String × ReplicaMeta)) (sched : List Nat)
    (acc : List (String × ReplicaMeta)) : List (String × ReplicaMeta) :=
  sched.foldl (fun acc2 i => toR.foldl (pollStep st rid pg pa i) acc2) acc

/-- Embeds lines 220-251: from the old cache and the fresh snapshot, the
`need_register_replicas` dict of disappeared paths that match
`f'/{server_type}:{i}/{replica_id}' in replica` for some scheduled task
index `i`, with their records' ports rewritten. -/
def poll_need_register (conf : AgentConfig) (oldC newC : Cache) :
    List (String × ReplicaMeta) :=
  match serverTypePorts conf with
  | none => []
  | some (st, pg, pa) =>
    if (toRemovedOf oldC newC).isEmpty then []
    else
      pollSchedFold st conf.replica_id pg pa (toRemovedOf oldC newC)
        conf.schedule []

/-- An ephemeral `create`: fails with `NodeExistsError` when the path is
already present (the kazoo client's behaviour at the interface boundary). -/
def zkCreate (zk : ZkTree) (p : String) (v : ReplicaMeta) : Except Unit ZkTree :=
  if (alookup zk p).isSome then Except.error () else Except.ok (zk ++ [(p, v)])

/-- Embeds lines 256-267: re-create every selected node, swallowing
`NodeExistsError` (`logging.info` only) so the sweep never fails there. -/
def registerSweep (zk : ZkTree) : List (String × ReplicaMeta) → ZkTree
  | [] => zk
  | pm :: rest =>
    match zkCreate zk pm.1 pm.2 with
    | Except.ok zk2 => registerSweep zk2 rest
    | Except.error _ => registerSweep zk rest

/-! ### Query methods (`ReplicaWatcher.get_*`, lines 273-378) -/

/-- The watcher's query-relevant construction state: its config plus the
`use_archon` and address-family switches fixed at construction. -/
structure WatcherCtx where
  conf : AgentConfig
  use_archon : Bool
  family : AddressFamily
deriving DecidableEq

/-- The per-task filter shared by `get_replicas`/`get_replica` (lines
316-317, 338-339): server type, integer task index, and locality flag. -/
def queryMatch (w : WatcherCtx) (path : String) (st_low : String) (task : Nat)
    (idc cluster : Option String) : Bool :=
  (parseZKPath path).serverType == st_low &&
    parseNatDigits (parseZKPath path).index == task &&
    (if w.conf.dc_aware then (parseZKPath path).ship_in idc cluster else true)

/-- The address projection of one task map's AVAILABLE entries (the list
comprehensions of lines 288-293 and 319-324). -/
def availAddrs (w : WatcherCtx) (tm : TaskMap) : List String :=
  (tm.filter fun rm => rm.2.stat == ModelState.AVAILABLE).map
    fun rm => rm.2.get_address w.use_archon w.family

/-- Embeds `ReplicaWatcher.get_replicas` (lines 306-325). -/
def get_replicas (w : WatcherCtx) (c : Cache) (server_type : ServerType)
    (task : Nat) (idc cluster : Option String) : List String :=
  match c with
  | [] => []
  | (path, replicas) :: rest =>
    (if queryMatch w path server_type.nameLower task idc cluster then
       availAddrs w replicas
     else []) ++ get_replicas w rest server_type task idc cluster

/-- The `result` list built by `ReplicaWatcher.get_replica` (lines 334-346). -/
def get_replica_list (w : WatcherCtx) (c : Cache) (st_low : String)
    (task replica : Nat) (idc cluster : Option String) : List String :=
  match c with
  | [] => []
  | (path, replicas) :: rest =>
    (if queryMatch w path st_low task idc cluster then
       (replicas.filter fun rm =>
           parseNatDigits rm.1 == replica && rm.2.stat == ModelState.AVAILABLE).map
         fun rm => rm.2.get_address w.use_archon w.family
     else []) ++ get_replica_list w rest st_low task replica idc cluster

/-- Embeds `ReplicaWatcher.get_replica` (lines 327-354): `none` for no match,
a single address, or (defensively) a list when more than one matched. -/
def get_replica (w : WatcherCtx) (c : Cache) (server_type : ServerType)
    (task replica : Nat) (idc cluster : Option String) :
    Option (String ⊕ List String) :=
  match get_replica_list w c server_type.nameLower task replica idc cluster with
  | [] => none
  | [a] => some (Sum.inl a)
  | a :: b :: rest => some (Sum.inr (a :: b :: rest))

/-- Embeds `ReplicaWatcher.get_all_replicas` (lines 273-304): group the
AVAILABLE addresses of every matching task path by its (location-qualified)
task key. -/
def allMatch (w : WatcherCtx) (path st_low : String)
    (idc cluster : Option String) : Bool :=
  (parseZKPath path).serverType == st_low &&
    (if w.conf.dc_aware then (parseZKPath path).ship_in idc cluster else true)

/-- The grouping key `os.path.join(location, task)` / `task` of lines
285-287. -/
def allKey (w : WatcherCtx) (path : String) : String :=
  if w.conf.dc_aware then
    (parseZKPath path).location ++ "/" ++ (parseZKPath path).task
  else (parseZKPath path).task

def get_all_replicas_go (w : WatcherCtx) (st_low : String)
    (idc cluster : Option String) :
    Cache → List (String × List String) → List (String × List String)
  | [], acc => acc
  | (path, replicas) :: rest, acc =>
    if allMatch w path st_low idc cluster then
      get_all_replicas_go w st_low idc cluster rest
        (match alookup acc (allKey w path) with
         | some v => aupsert acc (allKey w path) (v ++ availAddrs w replicas)
         | none => aupsert acc (allKey w path) (availAddrs w replicas))
    else get_all_replicas_go w st_low idc cluster rest acc

/-- Embeds `ReplicaWatcher.get_all_replicas` (lines 273-304). -/
def get_all_replicas (w : WatcherCtx) (c : Cache) (server_type : ServerType)
    (idc cluster : Option String) : List (String × List String) :=
  get_all_replicas_go w server_type.nameLower idc cluster c []

/-- The addresses contained in a `get_replica` result, for stating that every
returned address — in any of the three result shapes — satisfies a
property. -/
def getReplicaAddrs : Option (String ⊕ List String) → List String
  | none => []
  | some (Sum.inl a) => [a]
  | some (Sum.inr l) => l

/-- Embeds `ReplicaManager.is_ps_set_started` (lines 797-805): every task
index in `range(num_ps)` must have a nonempty `get_replicas` result at this
configuration's idc and cluster. -/
def is_ps_set_started (w : WatcherCtx) (c : Cache) : Bool :=
  (List.range w.conf.num_ps).all fun i =>
    !(get_replicas w c ServerType.PS i w.conf.idc w.conf.cluster).isEmpty

/-- The claim's reading of `is_ps_set_started`, following the claim's words
rather than the source: only task indices *owned by this process's shard*
(`i % num_shard = shard_id`) must have an AVAILABLE replica.  Used solely to
compare against the source definition above. -/
def is_ps_set_started_claim_reading (w : WatcherCtx) (c : Cache) : Bool :=
  (List.range w.conf.num_ps).all fun i =>
    !(decide (i % w.conf.num_shard = w.conf.shard_id)) ||
      !(get_replicas w c ServerType.PS i w.conf.idc w.conf.cluster).isEmpty

/-! ### Updater (`ReplicaUpdater`, lines 384-714) -/

/-- Modelled from the spec: the `status` sub-record of a model version entry
returned by the health source, with `error_code = 0` for OK (spec section
6). -/
structure StatusProto where
  error_code : Nat
  error_message : String
deriving DecidableEq

/-- Modelled from the spec: one `(version, state, status)` entry of the model
health source's response (spec section 6). -/
structure ModelVersionStatus where
  version : Int
  state : ModelState
  status : StatusProto
deriving DecidableEq

/-- Stable insertion into a version-descending list: the new element goes
after every element with version at least its own, matching the order Python's
stable `list.sort(key=version, reverse=True)` produces for its position. -/
def insertDesc (m : ModelVersionStatus) :
    List ModelVersionStatus → List ModelVersionStatus
  | [] => [m]
  | x :: xs => if x.version < m.version then m :: x :: xs else x :: insertDesc m xs

/-- Embeds `model_status.sort(key=lambda mvs: mvs.version, reverse=True)`
(line 558) as a stable descending sort. -/
def sortDesc (l : List ModelVersionStatus) : List ModelVersionStatus :=
  l.foldl (fun acc m => insertDesc m acc) []

/-- Embeds the version-selection logic of `_do_update` (lines 555-565): with
more than one entry, sort by version descending and prefer the first
AVAILABLE one; otherwise (or when none is AVAILABLE) take `model_status[0]`.
Returns `none` exactly when the list is empty (the `len > 0` guard). -/
def selectVersion (ms : List ModelVersionStatus) : Option ModelVersionStatus :=
  match ms with
  | [] => none
  | _ :: _ =>
    match (if ms.length > 1 then
        (sortDesc ms).find? fun m => m.state == ModelState.AVAILABLE
      else none) with
    | some m => some m
    | none => (if ms.length > 1 then sortDesc ms else ms).head?

/-- Embeds `ReplicaUpdater.model_names` (lines 434-449). -/
def model_names (conf : AgentConfig) : List String :=
  let ps :=
    if conf.deploy_type = DeployType.MIXED ∨ conf.deploy_type = DeployType.PS then
      ((List.range conf.num_ps).filter fun t =>
          t % conf.num_shard = conf.shard_id).map fun t => "ps_" ++ toString t
    else []
  let en :=
    if conf.deploy_type = DeployType.MIXED ∨ conf.deploy_type = DeployType.ENTRY then
      ["entry"]
    else []
  let de :=
    if conf.dense_alone ∧
        (conf.deploy_type = DeployType.MIXED ∨ conf.deploy_type = DeployType.DENSE) then
      ["dense_0"]
    else []
  ps ++ en ++ de

/-- Embeds `ReplicaUpdater.ps_path` (lines 456-458). -/
def ps_path (conf : AgentConfig) (task_id : Nat) : String :=
  conf.rootPath ++ "/ps:" ++ toString task_id ++ "/" ++ toString conf.replica_id

/-- Embeds `ReplicaUpdater.dense_path` (lines 460-462). -/
def dense_path (conf : AgentConfig) : String :=
  conf.rootPath ++ "/dense:0/" ++ toString conf.replica_id

/-- Embeds the replica-path computation at the top of `_do_update`
(lines 528-534). -/
def roleReplicaPath (conf : AgentConfig) (name : String) : String :=
  if isPrefixL "entry".data name.data then
    conf.rootPath ++ "/entry:0/" ++ fmt011 conf.replica_id
  else if isPrefixL "ps".data name.data then
    ps_path conf
      (parseNatDigits ((((charsSplit '_' name.data).map fun cs => String.mk cs).drop 1).headD ""))
  else dense_path conf

/-- The updater's local registration table `self.meta`. -/
abbrev MetaTable := List (String × ReplicaMeta)

/-- Embeds `ReplicaUpdater._do_update` (lines 528-586) for one role.
`health` is the outcome of `model_monitor.get_model_status(name)`:
`Except.error` models a raised query exception, `Except.ok none` a `None`
response, `Except.ok (some ms)` a list response.  The returned `Except.error`
carries the message of a raised Python exception (the `raise` of line 569, or
a `KeyError` on a missing `self.meta` entry); `Except.ok` returns the updated
ZooKeeper tree and meta table, with the set-or-create fallback (`NoNodeError`)
folded into a plain upsert. -/
def do_update (conf : AgentConfig) (zk : ZkTree) (meta : MetaTable)
    (name : String) (health : Except Unit (Option (List ModelVersionStatus))) :
    Except String (ZkTree × MetaTable) :=
  let path := roleReplicaPath conf name
  match health with
  | Except.error _ =>
    match alookup meta path with
    | none => Except.error "KeyError"
    | some rm =>
      if rm.stat ≠ ModelState.UNKNOWN then
        let rm2 := { rm with stat := ModelState.UNKNOWN }
        Except.ok (aupsert zk path rm2, aupsert meta path rm2)
      else Except.ok (zk, meta)
  | Except.ok ms? =>
    match ms? with
    | none => Except.ok (zk, meta)
    | some ms =>
      match selectVersion ms with
      | none => Except.ok (zk, meta)
      | some sel =>
        if sel.status.error_code ≠ 0 then Except.error sel.status.error_message
        else
          match alookup meta path with
          | none => Except.error "KeyError"
          | some rm =>
            if rm.stat ≠ sel.state then
              let rm2 := { rm with stat := sel.state }
              Except.ok (aupsert zk path rm2, aupsert meta path rm2)
            else Except.ok (zk, meta)

/-- Outcome of one iteration of the `_updater` loop body: final state, the
roles whose `_do_update` was entered, and the caught-and-logged exception (its
message and the `curr_name` role it was logged with), if any. -/
structure UpdIterResult where
  zk : ZkTree
  meta : MetaTable
  processed : List String
  logged : Option (String × String)
deriving DecidableEq

/-- The `for name in self.model_names` loop of lines 595-597 under the
enclosing try/except of lines 594-603: a raising role ends the iteration and
is caught and logged at the loop boundary. -/
def updater_iter_go (conf : AgentConfig)
    (health : String → Except Unit (Option (List ModelVersionStatus))) :
    List String → ZkTree → MetaTable → List String → UpdIterResult
  | [], zk, meta, acc => ⟨zk, meta, acc.reverse, none⟩
  | n :: rest, zk, meta, acc =>
    match do_update conf zk meta n (health n) with
    | Except.ok zm => updater_iter_go conf health rest zm.1 zm.2 (n :: acc)
    | Except.error e => ⟨zk, meta, (n :: acc).reverse, some (e, n)⟩

/-- Embeds one non-skipped iteration of `ReplicaUpdater._updater`
(lines 588-606). -/
def updater_iteration (conf : AgentConfig)
    (health : String → Except Unit (Option (List ModelVersionStatus)))
    (zk : ZkTree) (meta : MetaTable) : UpdIterResult :=
  updater_iter_go conf health (model_names conf) zk meta []

/-! ### Connection listener and reconnect loop
(`ZKListener.__call__`, lines 717-746, and `ReplicaUpdater._reregister`,
lines 671-677) -/

/-- The kazoo connection states delivered to the listener. -/
inductive KazooState
  | LOST
  | SUSPENDED
  | CONNECTED
deriving DecidableEq

/-- The joint control state of listener, watcher and updater: the listener's
`_has_lost`, the watcher's `_should_poll`, the updater's `_should_update` and
`_should_reregister`, plus a counter of `register()` invocations. -/
structure ConnSt where
  has_lost : Bool
  should_poll : Bool
  should_update : Bool
  should_reregister : Bool
  register_count : Nat
deriving DecidableEq

/-- Embeds `ZKListener.__call__` (lines 724-746): LOST records the loss and
pauses watcher poll and updater push; SUSPENDED does nothing; CONNECTED after
a recorded loss sets the re-register flag, (after the 5s wait) re-enables
polling, and clears the loss flag. -/
def listener_call (s : ConnSt) (state : KazooState) : ConnSt :=
  match state with
  | KazooState.LOST =>
    { s with has_lost := true, should_poll := false, should_update := false }
  | KazooState.SUSPENDED => s
  | KazooState.CONNECTED =>
    if s.has_lost then
      { s with should_reregister := true, should_poll := true, has_lost := false }
    else s

/-- Embeds one 10s tick of `ReplicaUpdater._reregister` (lines 671-677): when
the re-register flag is set, invoke `register()` and re-enable updates.  The
line clearing `_should_reregister` is commented out in the source, so the
flag is never reset. -/
def reregister_tick (s : ConnSt) : ConnSt :=
  if s.should_reregister then
    { s with register_count := s.register_count + 1, should_update := true }
  else s

/-- `n` consecutive 10s ticks of the reconnect loop. -/
def reregister_ticks : Nat → ConnSt → ConnSt
  | 0, s => s
  | n + 1, s => reregister_ticks n (reregister_tick s)

/-! ### The abstract node model for the cache-correspondence claim

The claim compares the cache with "the map from currently-existing,
non-empty-payload nodes to their latest deserialized payload".  The
definitions below state that abstract map (from the claim's words, as the
refinement target) together with the well-formedness of an event sequence:
create events (the synthetic initial call or CREATED) hit nodes that do not
currently exist, change events and delete events hit nodes that do, creates
and changes carry the node's (non-empty) payload, and deletes carry none.
Nodes are identified by task path and canonical replica key. -/

/-- One delivered data-watch notification: the watched path split as
dirname/basename, the payload, and the kazoo event type. -/
structure WEvent where
  tp : String
  base : String
  payload : Option ReplicaMeta
  etype : Option EventType
deriving DecidableEq

/-- The node identity an event refers to. -/
def specKey (e : WEvent) : String × String := (e.tp, canon e.base)

/-- The abstract map of currently-existing nodes to their latest payload. -/
abbrev NodeModel := List ((String × String) × ReplicaMeta)

/-- Well-formedness of a single event against the abstract node map. -/
def wfStep (sm : NodeModel) (e : WEvent) : Bool :=
  match e.payload, e.etype with
  | some _, none => !(alookup sm (specKey e)).isSome
  | some _, some EventType.CREATED => !(alookup sm (specKey e)).isSome
  | some _, some EventType.CHANGED => (alookup sm (specKey e)).isSome
  | none, some EventType.DELETED => (alookup sm (specKey e)).isSome
  | _, _ => false

/-- Effect of an event on the abstract node map: creates and changes record
the latest payload, deletes remove the node. -/
def nodeModelApply (sm : NodeModel) (e : WEvent) : NodeModel :=
  match e.payload with
  | some m => aupsert sm (specKey e) m
  | none => aerase sm (specKey e)

/-- Well-formedness of an event sequence from a starting node map. -/
def wfEvents : NodeModel → List WEvent → Bool
  | _, [] => true
  | sm, e :: rest => wfStep sm e && wfEvents (nodeModelApply sm e) rest

/-- The abstract node map after a sequence of events. -/
def nodeModelRun (sm : NodeModel) (evs : List WEvent) : NodeModel :=
  evs.foldl nodeModelApply sm

/-- Delivering a sequence of events to the data-watch callback; `none` models
a raised Python exception in some callback. -/
def applyEvents : List WEvent → Cache → Option Cache
  | [], c => some c
  | e :: rest, c =>
    match data_watch e.tp e.base e.payload e.etype c with
    | some c2 => applyEvents rest c2
    | none => none

/-! ### Concrete fixtures

Fixed small inputs used by witnesses and counterexamples. -/

/-- A fresh connection-control state (all loops enabled, nothing lost). -/
def connSt0 : ConnSt :=
  { has_lost := false
    should_poll := true
    should_update := true
    should_reregister := false
    register_count := 0 }

/-- A fixed AVAILABLE replica record. -/
def metaAvail : ReplicaMeta :=
  { address := "10.0.0.7:8500"
    address_ipv6 := "[::1]:8500"
    archon_address := "10.0.0.7:8600"
    archon_address_ipv6 := "[::1]:8600"
    stat := ModelState.AVAILABLE }

/-- A fixed UNAVAILABLE replica record. -/
def metaUnavail : ReplicaMeta :=
  { metaAvail with stat := ModelState.UNAVAILABLE }

/-- A fixed UNKNOWN replica record. -/
def metaUnknown : ReplicaMeta :=
  { metaAvail with stat := ModelState.UNKNOWN }

/-- A small PS-shard configuration: two PS tasks over two shards, this
process being shard 0 with replica id 2 and schedule [1]. -/
def confFix : AgentConfig :=
  { bzid := "b"
    base_name := "m"
    dc_aware := false
    dense_alone := false
    deploy_type := DeployType.PS
    num_ps := 2
    num_shard := 2
    shard_id := 0
    replica_id := 2
    idc := none
    cluster := none
    tfs_entry_port := 8100
    tfs_entry_archon_port := 8101
    tfs_ps_port := 8200
    tfs_ps_archon_port := 8201
    tfs_port_grpc := 9000
    tfs_dense_port := 8300
    tfs_dense_archon_port := 8301
    schedule := [1] }

/-- The watcher context over `confFix` (grpc addresses, IPv4). -/
def wFix : WatcherCtx := ⟨confFix, false, AddressFamily.IPV4⟩

/-- A health entry: version 3, AVAILABLE, OK status. -/
def mvsOldAvail : ModelVersionStatus :=
  { version := 3, state := ModelState.AVAILABLE, status := ⟨0, ""⟩ }

/-- A health entry: version 7, UNAVAILABLE, OK status. -/
def mvsNewUnavail : ModelVersionStatus :=
  { version := 7, state := ModelState.UNAVAILABLE, status := ⟨0, ""⟩ }

/-- A health entry whose status carries a non-OK error code. -/
def mvsErr : ModelVersionStatus :=
  { version := 5, state := ModelState.AVAILABLE, status := ⟨3, "boom"⟩ }

/-- A PS configuration with a single shard owning both PS tasks, so the
updater's role list is `["ps_0", "ps_1"]`. -/
def confTwoPs : AgentConfig :=
  { confFix with num_shard := 1, shard_id := 0, schedule := [0, 1] }

/-- A health source answering role `ps_0` with an error-status entry and
every other role with a healthy AVAILABLE entry. -/
def healthFix (name : String) :
    Except Unit (Option (List ModelVersionStatus)) :=
  if name == "ps_0" then Except.ok (some [mvsErr])
  else Except.ok (some [mvsOldAvail])

/-- A well-formed event sequence: initial delivery of replica 0, a change of
replica 0, creation of replica 1, then deletion of replica 0. -/
def evsFix : List WEvent :=
  [⟨"/b/service/m/ps:0", "0", some metaAvail, none⟩,
   ⟨"/b/service/m/ps:0", "0", some metaUnavail, some EventType.CHANGED⟩,
   ⟨"/b/service/m/ps:0", "1", some metaAvail, some EventType.CREATED⟩,
   ⟨"/b/service/m/ps:0", "0", none, some EventType.DELETED⟩]

/-! ## Theorems

All definitions are above; everything below is lemmas and the claim theorems. -/

/-! ### Association-list lemmas -/

theorem alookup_aupsert_self {κ α : Type} [DecidableEq κ]
    (m : List (κ × α)) (k : κ) (v : α) : alookup (aupsert m k v) k = some v := by
  induction m with
  | nil => simp [aupsert, alookup]
  | cons hd tl ih =>
    obtain ⟨k', v'⟩ := hd
    by_cases h : k' = k
    · simp [aupsert, h, alookup]
    · simp [aupsert, h, alookup, ih]

theorem alookup_aupsert_ne {κ α : Type} [DecidableEq κ]
    (m : List (κ × α)) (k k' : κ) (v : α) (h : k ≠ k') :
    alookup (aupsert m k v) k' = alookup m k' := by
  induction m with
  | nil => simp [aupsert, alookup, h]
  | cons hd tl ih =>
    obtain ⟨k0, v0⟩ := hd
    by_cases h0 : k0 = k
    · subst h0; simp [aupsert, alookup, h]
    · simp [aupsert, h0, alookup, ih]

theorem alookup_aerase_ne {κ α : Type} [DecidableEq κ]
    (m : List (κ × α)) (k k' : κ) (h : k ≠ k') :
    alookup (aerase m k) k' = alookup m k' := by
  induction m with
  | nil => simp [aerase]
  | cons hd tl ih =>
    obtain ⟨k0, v0⟩ := hd
    by_cases h0 : k0 = k
    · subst h0; simp [aerase, alookup, h]
    · simp [aerase, h0, alookup, ih]

theorem mem_fst_aupsert {κ α : Type} [DecidableEq κ]
    (m : List (κ × α)) (k x : κ) (v : α) :
    x ∈ (aupsert m k v).map Prod.fst ↔ x = k ∨ x ∈ m.map Prod.fst := by
  induction m with
  | nil => simp [aupsert]
  | cons hd tl ih =>
    obtain ⟨k0, v0⟩ := hd
    by_cases h0 : k0 = k
    · subst h0; simp [aupsert]
    · simp [aupsert, h0, ih]
      tauto

theorem keysND_aupsert {κ α : Type} [DecidableEq κ]
    (m : List (κ × α)) (k : κ) (v : α) (h : keysND m) :
    keysND (aupsert m k v) := by
  induction m with
  | nil => simp [keysND, aupsert]
  | cons hd tl ih =>
    obtain ⟨k0, v0⟩ := hd
    unfold keysND at h
    simp only [List.map_cons, List.nodup_cons] at h
    by_cases h0 : k0 = k
    · subst h0
      have he : aupsert ((k0, v0) :: tl) k0 v = (k0, v) :: tl := by
        simp [aupsert]
      unfold keysND
      rw [he]
      simp only [List.map_cons, List.nodup_cons]
      exact h
    · unfold keysND
      simp only [aupsert, if_neg h0, List.map_cons, List.nodup_cons]
      constructor
      · intro hmem
        rcases (mem_fst_aupsert tl k k0 v).mp hmem with h1 | h1
        · exact h0 h1
        · exact h.1 h1
      · exact ih h.2

theorem aerase_sublist {κ α : Type} [DecidableEq κ]
    (m : List (κ × α)) (k : κ) : (aerase m k).Sublist m := by
  induction m with
  | nil => simp [aerase]
  | cons hd tl ih =>
    obtain ⟨k0, v0⟩ := hd
    by_cases h0 : k0 = k
    · simp [aerase, h0]
    · simpa [aerase, h0] using List.Sublist.cons₂ (k0, v0) ih

theorem keysND_aerase {κ α : Type} [DecidableEq κ]
    (m : List (κ × α)) (k : κ) (h : keysND m) : keysND (aerase m k) :=
  List.Nodup.sublist (List.Sublist.map Prod.fst (aerase_sublist m k)) h

theorem alookup_eq_none_of_not_mem {κ α : Type} [DecidableEq κ]
    (m : List (κ × α)) (k : κ) (h : k ∉ m.map Prod.fst) :
    alookup m k = none := by
  induction m with
  | nil => simp [alookup]
  | cons hd tl ih =>
    obtain ⟨k0, v0⟩ := hd
    simp only [List.map_cons, List.mem_cons, not_or] at h
    have hne : ¬ k0 = k := fun he => h.1 he.symm
    simp only [alookup, if_neg hne]
    exact ih h.2

theorem alookup_aerase_self {κ α : Type} [DecidableEq κ]
    (m : List (κ × α)) (k : κ) (h : keysND m) :
    alookup (aerase m k) k = none := by
  induction m with
  | nil => simp [aerase, alookup]
  | cons hd tl ih =>
    obtain ⟨k0, v0⟩ := hd
    unfold keysND at h
    simp only [List.map_cons, List.nodup_cons] at h
    by_cases h0 : k0 = k
    · subst h0
      simp only [aerase, if_pos rfl]
      exact alookup_eq_none_of_not_mem tl k0 h.1
    · simp only [aerase, if_neg h0, alookup, if_neg h0]
      exact ih h.2

theorem aupsert_ne_nil {κ α : Type} [DecidableEq κ]
    (m : List (κ × α)) (k : κ) (v : α) : aupsert m k v ≠ [] := by
  cases m with
  | nil => simp [aupsert]
  | cons hd tl =>
    obtain ⟨k0, v0⟩ := hd
    by_cases h0 : k0 = k <;> simp [aupsert, h0]

theorem aupsert_aupsert_same {κ α : Type} [DecidableEq κ]
    (m : List (κ × α)) (k : κ) (v w : α) :
    aupsert (aupsert m k v) k w = aupsert m k w := by
  induction m with
  | nil => simp [aupsert]
  | cons hd tl ih =>
    obtain ⟨k0, v0⟩ := hd
    by_cases h0 : k0 = k
    · simp [aupsert, h0]
    · simp [aupsert, h0, ih]


/-! ### Claim C1: register() per LOST episode -/

theorem reregister_ticks_of_flag (n : Nat) (s : ConnSt)
    (h : s.should_reregister = true) :
    (reregister_ticks n s).register_count = s.register_count + n ∧
      (reregister_ticks n s).should_reregister = true := by
  induction n generalizing s with
  | zero => exact ⟨rfl, h⟩
  | succ k ih =>
    simp only [reregister_ticks]
    have htick : reregister_tick s =
        { s with register_count := s.register_count + 1, should_update := true } := by
      simp [reregister_tick, h]
    rw [htick]
    obtain ⟨h1, h2⟩ :=
      ih { s with register_count := s.register_count + 1, should_update := true }
        (by simpa using h)
    refine ⟨?_, h2⟩
    rw [h1]
    simp
    omega

/-- Claim C1, counterexample: the claim says `register()` is invoked exactly
once per CONNECTED→LOST→CONNECTED episode and that the "should re-register"
flag no longer causes further `register()` calls on subsequent 10s ticks.
On the code, after one LOST→CONNECTED episode and two 10s ticks of the
reconnect loop, `register()` has been invoked twice, because the line
clearing `_should_reregister` is commented out. -/
theorem C1_counterexample :
    (reregister_ticks 2 (listener_call (listener_call connSt0 KazooState.LOST)
        KazooState.CONNECTED)).register_count = 2 := by decide

/-- Claim C1, amended: for every LOST episode (CONNECTED→LOST→CONNECTED
delivered to the listener), the reconnect loop invokes `register()` on the
first 10s tick after reconnection and again on every subsequent tick — the
"should re-register" flag is set by the reconnection and never cleared — so
`register()` runs at least once per episode, not exactly once. -/
theorem C1_register_every_tick_after_reconnect (s : ConnSt) (n : Nat) :
    (reregister_ticks n (listener_call (listener_call s KazooState.LOST)
        KazooState.CONNECTED)).register_count
      = (listener_call (listener_call s KazooState.LOST)
          KazooState.CONNECTED).register_count + n
    ∧ (reregister_ticks n (listener_call (listener_call s KazooState.LOST)
        KazooState.CONNECTED)).should_reregister = true := by
  apply reregister_ticks_of_flag
  simp [listener_call]



/-! ### Claim C8: is_ps_set_started -/

/-- Claim C8, counterexample: the claim says `is_ps_set_started` is True iff
every PS task index *owned by this process's shard* has an AVAILABLE replica.
With two PS tasks over two shards and this process being shard 0, the only
owned task (0) has an AVAILABLE replica — the claim's predicate is true —
yet `is_ps_set_started` returns False, because the code iterates
`range(num_ps)` over all tasks and task 1 has none. -/
theorem C8_counterexample :
    is_ps_set_started wFix [("/b/service/m/ps:0", [("0", metaAvail)])] = false ∧
    is_ps_set_started_claim_reading wFix
      [("/b/service/m/ps:0", [("0", metaAvail)])] = true := by
  constructor
  · decide
  · decide

/-- Claim C8, amended: `is_ps_set_started` returns True if and only if every
PS task index in `range(num_ps)` — all tasks, regardless of shard ownership —
has at least one AVAILABLE replica as reported by `get_replicas` at this
configuration's idc and cluster; if any task index has none it returns
False. -/
theorem C8_all_tasks_available (w : WatcherCtx) (c : Cache) :
    is_ps_set_started w c = true ↔
      ∀ i < w.conf.num_ps,
        get_replicas w c ServerType.PS i w.conf.idc w.conf.cluster ≠ [] := by
  unfold is_ps_set_started
  rw [List.all_eq_true]
  constructor
  · intro h i hi
    have h2 := h i (List.mem_range.mpr hi)
    simp only [Bool.not_eq_true', List.isEmpty_eq_false_iff_exists_mem] at h2
    obtain ⟨x, hx⟩ := h2
    intro he
    rw [he] at hx
    exact absurd hx (List.not_mem_nil x)
  · intro h i hi
    have h2 := h i (List.mem_range.mp hi)
    simp only [Bool.not_eq_true', List.isEmpty_eq_false_iff_exists_mem]
    cases hg : get_replicas w c ServerType.PS i w.conf.idc w.conf.cluster with
    | nil => exact absurd hg h2
    | cons a rest => exact ⟨a, List.mem_cons_self a rest⟩

/-- Closed witness for the amended C8 theorem at a concrete two-task cache. -/
theorem C8_witness :
    is_ps_set_started wFix
      [("/b/service/m/ps:0", [("0", metaAvail)]),
       ("/b/service/m/ps:1", [("0", metaAvail)])] = true :=
  (C8_all_tasks_available wFix
    [("/b/service/m/ps:0", [("0", metaAvail)]),
     ("/b/service/m/ps:1", [("0", metaAvail)])]).mpr (by decide)

/-! ### Claim C7: empty-payload CHANGED notifications -/

theorem data_watch_none_entry (c : Cache) (tp b : String) (tm : TaskMap)
    (m0 : ReplicaMeta) (ev : Option EventType) (h1 : alookup c tp = some tm)
    (h2 : alookup tm (canon b) = some m0) :
    data_watch tp b none ev c =
      applyEventLocked
        (aupsert c tp (aupsert tm (canon b) { m0 with stat := ModelState.UNKNOWN }))
        tp (canon b) { m0 with stat := ModelState.UNKNOWN } ev := by
  simp only [data_watch, h1, h2]

theorem data_watch_none_no_task (c : Cache) (tp b : String)
    (ev : Option EventType) (h1 : alookup c tp = none) :
    data_watch tp b none ev c = some c := by
  simp only [data_watch, h1]

theorem data_watch_none_no_entry (c : Cache) (tp b : String) (tm : TaskMap)
    (ev : Option EventType) (h1 : alookup c tp = some tm)
    (h2 : alookup tm (canon b) = none) :
    data_watch tp b none ev c = some c := by
  simp only [data_watch, h1, h2]

theorem applyEventLocked_changed (c : Cache) (tp r : String)
    (meta : ReplicaMeta) (tm : TaskMap) (h : alookup c tp = some tm) :
    applyEventLocked c tp r meta (some EventType.CHANGED) =
      some (aupsert c tp (aupsert tm r meta)) := by
  simp only [applyEventLocked, h]

theorem cacheGet_aupsert_left (c : Cache) (tp r : String) (tm : TaskMap) :
    cacheGet (aupsert c tp tm) tp r = alookup tm r := by
  unfold cacheGet
  rw [alookup_aupsert_self]

/-- Claim C7: for a data-watch CHANGED notification with empty payload (None
or zero-length bytes), if a cache entry exists at that task path and replica
key, the entry remains present with its state forced to UNKNOWN (not
removed); if no such entry exists, the notification is ignored and the cache
is unchanged. -/
theorem C7_empty_changed_forces_unknown (c : Cache) (tp b : String)
    (m0 : ReplicaMeta) :
    (cacheGet c tp (canon b) = some m0 →
      ∃ c2, data_watch tp b none (some EventType.CHANGED) c = some c2 ∧
        cacheGet c2 tp (canon b) = some { m0 with stat := ModelState.UNKNOWN }) ∧
    (cacheGet c tp (canon b) = none →
      data_watch tp b none (some EventType.CHANGED) c = some c) := by
  constructor
  · intro h
    unfold cacheGet at h
    cases h1 : alookup c tp with
    | none => rw [h1] at h; cases h
    | some tm =>
      rw [h1] at h
      rw [data_watch_none_entry c tp b tm m0 (some EventType.CHANGED) h1 h]
      rw [applyEventLocked_changed _ tp (canon b) _ _ (alookup_aupsert_self c tp _)]
      refine ⟨_, rfl, ?_⟩
      rw [cacheGet_aupsert_left, alookup_aupsert_self]
  · intro h
    unfold cacheGet at h
    cases h1 : alookup c tp with
    | none => exact data_watch_none_no_task c tp b _ h1
    | some tm =>
      rw [h1] at h
      exact data_watch_none_no_entry c tp b tm _ h1 h

/-- Closed witness for C7 at a concrete one-entry cache. -/
theorem C7_witness :
    ∃ c2, data_watch "/b/service/m/ps:0" "3" none (some EventType.CHANGED)
        [("/b/service/m/ps:0", [("3", metaAvail)])] = some c2 ∧
      cacheGet c2 "/b/service/m/ps:0" (canon "3") =
        some { metaAvail with stat := ModelState.UNKNOWN } :=
  (C7_empty_changed_forces_unknown
    [("/b/service/m/ps:0", [("3", metaAvail)])] "/b/service/m/ps:0" "3"
    metaAvail).1 (by decide)


/-! ### Claim C6: queries return only AVAILABLE entries -/

theorem availAddrs_mem (w : WatcherCtx) (tm : TaskMap) (a : String)
    (h : a ∈ availAddrs w tm) :
    ∃ rm ∈ tm, rm.2.stat = ModelState.AVAILABLE ∧
      a = rm.2.get_address w.use_archon w.family := by
  unfold availAddrs at h
  rw [List.mem_map] at h
  obtain ⟨rm, hrm, ha⟩ := h
  rw [List.mem_filter] at hrm
  refine ⟨rm, hrm.1, ?_, ha.symm⟩
  have := hrm.2
  simpa [beq_iff_eq] using this

theorem get_replicas_mem (w : WatcherCtx) (c : Cache) (stype : ServerType)
    (task : Nat) (idc cluster : Option String) (a : String)
    (h : a ∈ get_replicas w c stype task idc cluster) :
    ∃ tp tm, (tp, tm) ∈ c ∧ ∃ rm ∈ tm, rm.2.stat = ModelState.AVAILABLE ∧
      a = rm.2.get_address w.use_archon w.family := by
  induction c with
  | nil => simp [get_replicas] at h
  | cons hd rest ih =>
    obtain ⟨path, replicas⟩ := hd
    unfold get_replicas at h
    rw [List.mem_append] at h
    rcases h with h | h
    · cases hq : queryMatch w path (ServerType.nameLower stype) task idc cluster with
      | false => rw [hq] at h; simp at h
      | true =>
        rw [hq] at h
        simp only [if_true] at h
        obtain ⟨rm, hrm, hst, ha⟩ := availAddrs_mem w replicas a h
        exact ⟨path, replicas, List.mem_cons_self _ _, rm, hrm, hst, ha⟩
    · obtain ⟨tp, tm, htm, hrest⟩ := ih h
      exact ⟨tp, tm, List.mem_cons_of_mem _ htm, hrest⟩

theorem get_replica_list_mem (w : WatcherCtx) (c : Cache) (st_low : String)
    (task replica : Nat) (idc cluster : Option String) (a : String)
    (h : a ∈ get_replica_list w c st_low task replica idc cluster) :
    ∃ tp tm, (tp, tm) ∈ c ∧ ∃ rm ∈ tm, rm.2.stat = ModelState.AVAILABLE ∧
      a = rm.2.get_address w.use_archon w.family := by
  induction c with
  | nil => simp [get_replica_list] at h
  | cons hd rest ih =>
    obtain ⟨path, replicas⟩ := hd
    unfold get_replica_list at h
    rw [List.mem_append] at h
    rcases h with h | h
    · cases hq : queryMatch w path st_low task idc cluster with
      | false => rw [hq] at h; simp at h
      | true =>
        rw [hq] at h
        simp only [if_true] at h
        rw [List.mem_map] at h
        obtain ⟨rm, hrm, ha⟩ := h
        rw [List.mem_filter] at hrm
        refine ⟨path, replicas, List.mem_cons_self _ _, rm, hrm.1, ?_, ha.symm⟩
        have h2 := hrm.2
        rw [Bool.and_eq_true] at h2
        simpa [beq_iff_eq] using h2.2
    · obtain ⟨tp, tm, htm, hrest⟩ := ih h
      exact ⟨tp, tm, List.mem_cons_of_mem _ htm, hrest⟩

theorem getReplicaAddrs_eq_list (w : WatcherCtx) (c : Cache)
    (stype : ServerType) (task replica : Nat) (idc cluster : Option String) :
    getReplicaAddrs (get_replica w c stype task replica idc cluster) =
      get_replica_list w c stype.nameLower task replica idc cluster := by
  unfold get_replica
  cases h : get_replica_list w c stype.nameLower task replica idc cluster with
  | nil => rfl
  | cons a rest => cases rest <;> rfl

/-- Claim C6: for every cache content mixing UNKNOWN, AVAILABLE and
UNAVAILABLE entries, every address returned by `get_replicas` or by
`get_replica` (in any result shape) is the address of a cache entry whose
cached state is AVAILABLE; no address of a non-AVAILABLE entry appears. -/
theorem C6_queries_only_available (w : WatcherCtx) (c : Cache)
    (stype : ServerType) (task replica : Nat) (idc cluster : Option String)
    (a : String)
    (h : a ∈ get_replicas w c stype task idc cluster ∨
      a ∈ getReplicaAddrs (get_replica w c stype task replica idc cluster)) :
    ∃ tp tm, (tp, tm) ∈ c ∧ ∃ rm ∈ tm, rm.2.stat = ModelState.AVAILABLE ∧
      a = rm.2.get_address w.use_archon w.family := by
  rcases h with h | h
  · exact get_replicas_mem w c stype task idc cluster a h
  · rw [getReplicaAddrs_eq_list] at h
    exact get_replica_list_mem w c stype.nameLower task replica idc cluster a h

/-- Closed witness for C6 at a cache mixing all three states. -/
theorem C6_witness :
    ∃ tp tm,
      (tp, tm) ∈ ([("/b/service/m/ps:0",
        [("0", metaAvail), ("1", metaUnavail), ("2", metaUnknown)])] : Cache) ∧
      ∃ rm ∈ tm, rm.2.stat = ModelState.AVAILABLE ∧
        "10.0.0.7:8500" = rm.2.get_address wFix.use_archon wFix.family :=
  C6_queries_only_available wFix
    [("/b/service/m/ps:0", [("0", metaAvail), ("1", metaUnavail), ("2", metaUnknown)])]
    ServerType.PS 0 0 none none "10.0.0.7:8500" (Or.inl (by decide))


/-! ### Claim C9: queries never raise on missing data -/

theorem get_all_replicas_go_no_match (w : WatcherCtx) (st_low : String)
    (idc cluster : Option String) (c : Cache)
    (acc : List (String × List String))
    (h : (c.all fun pr => !allMatch w pr.1 st_low idc cluster) = true) :
    get_all_replicas_go w st_low idc cluster c acc = acc := by
  induction c generalizing acc with
  | nil => rfl
  | cons hd rest ih =>
    obtain ⟨path, replicas⟩ := hd
    rw [List.all_cons, Bool.and_eq_true] at h
    unfold get_all_replicas_go
    rw [show allMatch w path st_low idc cluster = false from by
      simpa using h.1]
    simp only [Bool.false_eq_true, if_false]
    exact ih acc h.2

theorem get_replicas_no_match (w : WatcherCtx) (c : Cache)
    (stype : ServerType) (task : Nat) (idc cluster : Option String)
    (h : (c.all fun pr =>
      !queryMatch w pr.1 stype.nameLower task idc cluster) = true) :
    get_replicas w c stype task idc cluster = [] := by
  induction c with
  | nil => rfl
  | cons hd rest ih =>
    obtain ⟨path, replicas⟩ := hd
    rw [List.all_cons, Bool.and_eq_true] at h
    unfold get_replicas
    rw [show queryMatch w path (ServerType.nameLower stype) task idc cluster = false
      from by simpa using h.1]
    simp only [Bool.false_eq_true, if_false, List.nil_append]
    exact ih h.2

theorem get_replica_list_no_match (w : WatcherCtx) (c : Cache)
    (st_low : String) (task replica : Nat) (idc cluster : Option String)
    (h : (c.all fun pr => !queryMatch w pr.1 st_low task idc cluster) = true) :
    get_replica_list w c st_low task replica idc cluster = [] := by
  induction c with
  | nil => rfl
  | cons hd rest ih =>
    obtain ⟨path, replicas⟩ := hd
    rw [List.all_cons, Bool.and_eq_true] at h
    unfold get_replica_list
    rw [show queryMatch w path st_low task idc cluster = false
      from by simpa using h.1]
    simp only [Bool.false_eq_true, if_false, List.nil_append]
    exact ih h.2

/-- Claim C9: each query is a total function (so no exception can be raised
for "no data yet"), and whenever the cache holds no entry matching the call's
filter — in particular for a completely empty cache — `get_all_replicas`
returns the empty grouping, `get_replicas` the empty list, and `get_replica`
`none`. -/
theorem C9_no_data_empty_results (w : WatcherCtx) (c : Cache)
    (stype : ServerType) (task replica : Nat) (idc cluster : Option String) :
    ((c.all fun pr => !allMatch w pr.1 stype.nameLower idc cluster) = true →
      get_all_replicas w c stype idc cluster = []) ∧
    ((c.all fun pr => !queryMatch w pr.1 stype.nameLower task idc cluster) = true →
      get_replicas w c stype task idc cluster = [] ∧
      get_replica w c stype task replica idc cluster = none) := by
  constructor
  · intro h
    exact get_all_replicas_go_no_match w stype.nameLower idc cluster c [] h
  · intro h
    refine ⟨get_replicas_no_match w c stype task idc cluster h, ?_⟩
    unfold get_replica
    rw [get_replica_list_no_match w c stype.nameLower task replica idc cluster h]

/-- Closed witness for C9: on the empty cache all three queries return their
empty results. -/
theorem C9_witness :
    get_all_replicas wFix [] ServerType.PS none none = [] ∧
    get_replicas wFix [] ServerType.PS 0 none none = [] ∧
    get_replica wFix [] ServerType.PS 0 0 none none = none := by
  obtain ⟨h1, h2⟩ := C9_no_data_empty_results wFix [] ServerType.PS 0 0 none none
  exact ⟨h1 (by decide), (h2 (by decide)).1, (h2 (by decide)).2⟩


/-! ### Claim C4: version selection in the update loop -/

theorem insertDesc_cons_pos (m x : ModelVersionStatus)
    (xs : List ModelVersionStatus) (h : x.version < m.version) :
    insertDesc m (x :: xs) = m :: x :: xs := by
  simp only [insertDesc, if_pos h]

theorem insertDesc_cons_neg (m x : ModelVersionStatus)
    (xs : List ModelVersionStatus) (h : ¬ x.version < m.version) :
    insertDesc m (x :: xs) = x :: insertDesc m xs := by
  simp only [insertDesc, if_neg h]

theorem mem_insertDesc (m a : ModelVersionStatus) (l : List ModelVersionStatus) :
    a ∈ insertDesc m l ↔ a = m ∨ a ∈ l := by
  induction l with
  | nil => simp [insertDesc]
  | cons x xs ih =>
    by_cases h : x.version < m.version
    · rw [insertDesc_cons_pos m x xs h]
      simp only [List.mem_cons]
    · rw [insertDesc_cons_neg m x xs h]
      simp only [List.mem_cons, ih]
      tauto

theorem pairwise_insertDesc (m : ModelVersionStatus)
    (l : List ModelVersionStatus)
    (h : l.Pairwise fun a b => b.version ≤ a.version) :
    (insertDesc m l).Pairwise fun a b => b.version ≤ a.version := by
  induction l with
  | nil => simp [insertDesc]
  | cons x xs ih =>
    rw [List.pairwise_cons] at h
    by_cases hv : x.version < m.version
    · rw [insertDesc_cons_pos m x xs hv]
      rw [List.pairwise_cons]
      constructor
      · intro b hb
        rcases List.mem_cons.mp hb with rfl | hb2
        · exact le_of_lt hv
        · exact le_trans (h.1 b hb2) (le_of_lt hv)
      · exact List.pairwise_cons.mpr h
    · rw [insertDesc_cons_neg m x xs hv]
      rw [List.pairwise_cons]
      constructor
      · intro b hb
        rcases (mem_insertDesc m b xs).mp hb with rfl | hb2
        · exact le_of_not_lt hv
        · exact h.1 b hb2
      · exact ih h.2

theorem mem_sortDesc_aux (l acc : List ModelVersionStatus)
    (a : ModelVersionStatus) :
    a ∈ l.foldl (fun acc m => insertDesc m acc) acc ↔ a ∈ acc ∨ a ∈ l := by
  induction l generalizing acc with
  | nil => simp
  | cons x xs ih =>
    simp only [List.foldl_cons]
    rw [ih, mem_insertDesc]
    simp only [List.mem_cons]
    tauto

theorem mem_sortDesc (l : List ModelVersionStatus) (a : ModelVersionStatus) :
    a ∈ sortDesc l ↔ a ∈ l := by
  unfold sortDesc
  rw [mem_sortDesc_aux]
  simp

theorem pairwise_sortDesc_aux (l acc : List ModelVersionStatus)
    (h : acc.Pairwise fun a b => b.version ≤ a.version) :
    (l.foldl (fun acc m => insertDesc m acc) acc).Pairwise
      fun a b => b.version ≤ a.version := by
  induction l generalizing acc with
  | nil => exact h
  | cons x xs ih =>
    simp only [List.foldl_cons]
    exact ih (insertDesc x acc) (pairwise_insertDesc x acc h)

theorem pairwise_sortDesc (l : List ModelVersionStatus) :
    (sortDesc l).Pairwise fun a b => b.version ≤ a.version :=
  pairwise_sortDesc_aux l [] (List.Pairwise.nil)

theorem find_first_version_max (l : List ModelVersionStatus)
    (p : ModelVersionStatus → Bool) (a : ModelVersionStatus)
    (hs : l.Pairwise fun a b => b.version ≤ a.version)
    (h : l.find? p = some a) :
    ∀ b ∈ l, p b = true → b.version ≤ a.version := by
  induction l with
  | nil => simp [List.find?] at h
  | cons x xs ih =>
    rw [List.pairwise_cons] at hs
    intro b hb hpb
    rcases List.mem_cons.mp hb with rfl | hb2
    · cases hx : p b with
      | true =>
        rw [List.find?_cons_of_pos _ hx] at h
        injection h with h2
        rw [h2]
      | false => rw [hpb] at hx; cases hx
    · cases hx : p x with
      | true =>
        rw [List.find?_cons_of_pos _ hx] at h
        injection h with h2
        subst h2
        exact hs.1 b hb2
      | false =>
        rw [List.find?_cons_of_neg _ (by simp [hx])] at h
        exact ih hs.2 h b hb2 hpb

theorem head_version_max (x : ModelVersionStatus)
    (xs : List ModelVersionStatus)
    (hs : (x :: xs).Pairwise fun a b => b.version ≤ a.version) :
    ∀ b ∈ x :: xs, b.version ≤ x.version := by
  rw [List.pairwise_cons] at hs
  intro b hb
  rcases List.mem_cons.mp hb with rfl | hb2
  · exact le_refl _
  · exact hs.1 b hb2

/-- Claim C4: for every non-empty health response, the updater's selection
picks the entry with the highest version whose state is AVAILABLE, and when
no entry is AVAILABLE (including the one-entry case) it picks an entry of
maximal version regardless of state. -/
theorem C4_select_highest_available (ms : List ModelVersionStatus)
    (h : ms ≠ []) :
    ∃ sel, selectVersion ms = some sel ∧ sel ∈ ms ∧
      ((∃ a ∈ ms, a.state = ModelState.AVAILABLE) →
        sel.state = ModelState.AVAILABLE ∧
        ∀ a ∈ ms, a.state = ModelState.AVAILABLE → a.version ≤ sel.version) ∧
      ((∀ a ∈ ms, a.state ≠ ModelState.AVAILABLE) →
        ∀ a ∈ ms, a.version ≤ sel.version) := by
  match ms with
  | [] => exact absurd rfl h
  | [x] =>
    refine ⟨x, by simp [selectVersion], List.mem_singleton_self x, ?_, ?_⟩
    · rintro ⟨a, ha, hav⟩
      rw [List.mem_singleton] at ha
      subst ha
      exact ⟨hav, by intro b hb hbv; rw [List.mem_singleton] at hb; subst hb; exact le_refl _⟩
    · intro _ a ha
      rw [List.mem_singleton] at ha
      subst ha
      exact le_refl _
  | x :: y :: ys =>
    have hlen : (x :: y :: ys).length > 1 := by simp
    have hsel : selectVersion (x :: y :: ys) =
        match (sortDesc (x :: y :: ys)).find?
            (fun m => m.state == ModelState.AVAILABLE) with
        | some m => some m
        | none => (sortDesc (x :: y :: ys)).head? := by
      simp only [selectVersion, if_pos hlen]
    cases hf : (sortDesc (x :: y :: ys)).find?
        (fun m => m.state == ModelState.AVAILABLE) with
    | some a =>
      rw [hf] at hsel
      have hamem : a ∈ x :: y :: ys :=
        (mem_sortDesc _ a).mp (List.mem_of_find?_eq_some hf)
      have hast : a.state = ModelState.AVAILABLE := by
        have := List.find?_some hf
        simpa [beq_iff_eq] using this
      refine ⟨a, hsel, hamem, ?_, ?_⟩
      · intro _
        refine ⟨hast, ?_⟩
        intro b hb hbv
        exact find_first_version_max _ _ a (pairwise_sortDesc _) hf b
          ((mem_sortDesc _ b).mpr hb) (by simp [hbv])
      · intro hnone
        exact absurd hast (hnone a hamem)
    | none =>
      rw [hf] at hsel
      have hxmem : x ∈ sortDesc (x :: y :: ys) :=
        (mem_sortDesc _ x).mpr (List.mem_cons_self _ _)
      cases hsd : sortDesc (x :: y :: ys) with
      | nil => rw [hsd] at hxmem; cases hxmem
      | cons z zs =>
        rw [hsd] at hsel
        have hzmem : z ∈ x :: y :: ys :=
          (mem_sortDesc _ z).mp (hsd ▸ List.mem_cons_self z zs)
        refine ⟨z, hsel, hzmem, ?_, ?_⟩
        · rintro ⟨a, ha, hav⟩
          have hmem2 : a ∈ sortDesc (x :: y :: ys) := (mem_sortDesc _ a).mpr ha
          have := List.find?_eq_none.mp hf a hmem2
          exact absurd (by simp [hav]) this
        · intro _ b hb
          have hps : (z :: zs).Pairwise fun a b => b.version ≤ a.version :=
            hsd ▸ pairwise_sortDesc (x :: y :: ys)
          exact head_version_max z zs hps b (hsd ▸ (mem_sortDesc _ b).mpr hb)

/-- Closed witness for C4: on a two-entry response where the higher version
is UNAVAILABLE, the selected entry is the AVAILABLE one. -/
theorem C4_witness :
    ∃ sel, selectVersion [mvsNewUnavail, mvsOldAvail] = some sel ∧
      sel ∈ [mvsNewUnavail, mvsOldAvail] ∧
      ((∃ a ∈ [mvsNewUnavail, mvsOldAvail], a.state = ModelState.AVAILABLE) →
        sel.state = ModelState.AVAILABLE ∧
        ∀ a ∈ [mvsNewUnavail, mvsOldAvail],
          a.state = ModelState.AVAILABLE → a.version ≤ sel.version) ∧
      ((∀ a ∈ [mvsNewUnavail, mvsOldAvail], a.state ≠ ModelState.AVAILABLE) →
        ∀ a ∈ [mvsNewUnavail, mvsOldAvail], a.version ≤ sel.version) :=
  C4_select_highest_available [mvsNewUnavail, mvsOldAvail] (by decide)


/-! ### Claim C5: error status aborts the iteration -/

theorem updater_iter_go_logged (conf : AgentConfig)
    (health : String → Except Unit (Option (List ModelVersionStatus))) :
    ∀ (names : List String) (zk : ZkTree) (meta : MetaTable)
      (acc : List String) (e n : String),
      (updater_iter_go conf health names zk meta acc).logged = some (e, n) →
      ∃ pre post zk2 meta2, names = pre ++ n :: post ∧
        (updater_iter_go conf health names zk meta acc).processed =
          acc.reverse ++ (pre ++ [n]) ∧
        do_update conf zk2 meta2 n (health n) = Except.error e := by
  intro names
  induction names with
  | nil =>
    intro zk meta acc e n h
    simp [updater_iter_go] at h
  | cons n0 rest ih =>
    intro zk meta acc e n h
    cases hdo : do_update conf zk meta n0 (health n0) with
    | ok zm =>
      rw [show updater_iter_go conf health (n0 :: rest) zk meta acc =
          updater_iter_go conf health rest zm.1 zm.2 (n0 :: acc) from by
        simp only [updater_iter_go, hdo]] at h ⊢
      obtain ⟨pre, post, zk2, meta2, h1, h2, h3⟩ := ih zm.1 zm.2 (n0 :: acc) e n h
      refine ⟨n0 :: pre, post, zk2, meta2, by rw [h1, List.cons_append], ?_, h3⟩
      rw [h2]
      simp
    | error e0 =>
      rw [show updater_iter_go conf health (n0 :: rest) zk meta acc =
          ⟨zk, meta, (n0 :: acc).reverse, some (e0, n0)⟩ from by
        simp only [updater_iter_go, hdo]] at h ⊢
      simp only at h
      injection h with h
      injection h with he hn
      refine ⟨[], rest, zk, meta, by rw [hn, List.nil_append], ?_, ?_⟩
      · simp [hn]
      · rw [← hn, ← he]
        exact hdo

/-- Claim C5: when the health entry selected for a role carries
`error_code ≠ OK`, `_do_update` raises with that entry's error message inside
the current loop iteration, and the exception is caught and logged at the
loop boundary (first conjunct, the raise; second conjunct, the catch).
Amended: the roles processed in that iteration are exactly the roles up to
and including the raising one — the remaining roles in the role list are
skipped until the next tick, not processed in the same iteration as the
claim states. -/
theorem C5_error_logged_and_aborts (conf : AgentConfig)
    (health : String → Except Unit (Option (List ModelVersionStatus)))
    (zk : ZkTree) (meta : MetaTable) (e n : String) :
    (∀ (zk2 : ZkTree) (meta2 : MetaTable) (name : String)
      (ms : List ModelVersionStatus) (sel : ModelVersionStatus),
      health name = Except.ok (some ms) → selectVersion ms = some sel →
      sel.status.error_code ≠ 0 →
      do_update conf zk2 meta2 name (health name) =
        Except.error sel.status.error_message) ∧
    ((updater_iteration conf health zk meta).logged = some (e, n) →
      ∃ pre post zk2 meta2, model_names conf = pre ++ n :: post ∧
        (updater_iteration conf health zk meta).processed = pre ++ [n] ∧
        do_update conf zk2 meta2 n (health n) = Except.error e) := by
  constructor
  · intro zk2 meta2 name ms sel h1 h2 h3
    rw [h1]
    simp only [do_update, h2, ne_eq, h3, not_false_eq_true, if_pos]
  · intro h
    obtain ⟨pre, post, zk2, meta2, h1, h2, h3⟩ :=
      updater_iter_go_logged conf health (model_names conf) zk meta [] e n h
    exact ⟨pre, post, zk2, meta2, h1, by simpa using h2, h3⟩

/-- Claim C5, counterexample: with roles `["ps_0", "ps_1"]` and the entry
selected for `ps_0` carrying `error_code ≠ OK`, the iteration processes only
`ps_0` and logs the exception; `ps_1`, though in the role list, is NOT
processed in that iteration, contradicting the claim that the remaining
roles are still processed in the same iteration. -/
theorem C5_counterexample :
    model_names confTwoPs = ["ps_0", "ps_1"] ∧
    (updater_iteration confTwoPs healthFix [] []).processed = ["ps_0"] ∧
    (updater_iteration confTwoPs healthFix [] []).logged =
      some ("boom", "ps_0") := by
  refine ⟨by decide, by decide, by decide⟩

/-- Closed witness for C5 at the concrete two-role run. -/
theorem C5_witness :
    ∃ pre post zk2 meta2,
      model_names confTwoPs = pre ++ "ps_0" :: post ∧
      (updater_iteration confTwoPs healthFix [] []).processed = pre ++ ["ps_0"] ∧
      do_update confTwoPs zk2 meta2 "ps_0" (healthFix "ps_0") =
        Except.error "boom" :=
  (C5_error_logged_and_aborts confTwoPs healthFix [] [] "boom" "ps_0").2
    (by decide)


/-! ### Claim C3: reconciliation re-registration selection -/

theorem alookup_append_left {κ α : Type} [DecidableEq κ]
    (m l : List (κ × α)) (k : κ) (v : α) (h : alookup m k = some v) :
    alookup (m ++ l) k = some v := by
  induction m with
  | nil => simp [alookup] at h
  | cons hd tl ih =>
    obtain ⟨k0, v0⟩ := hd
    by_cases h0 : k0 = k
    · simp only [alookup, if_pos h0] at h
      simp only [List.cons_append, alookup, if_pos h0]
      exact h
    · simp only [alookup, if_neg h0] at h
      simp only [List.cons_append, alookup, if_neg h0]
      exact ih h

theorem alookup_eq_none_iff {κ α : Type} [DecidableEq κ]
    (m : List (κ × α)) (k : κ) :
    alookup m k = none ↔ k ∉ m.map Prod.fst := by
  constructor
  · intro h hk
    induction m with
    | nil => simp at hk
    | cons hd tl ih =>
      obtain ⟨k0, v0⟩ := hd
      by_cases h0 : k0 = k
      · simp [alookup, if_pos h0] at h
      · simp only [alookup, if_neg h0] at h
        simp only [List.map_cons, List.mem_cons] at hk
        rcases hk with hk | hk
        · exact h0 hk.symm
        · exact ih h hk
  · exact alookup_eq_none_of_not_mem m k

theorem alookup_of_mem_nodup {κ α : Type} [DecidableEq κ]
    (m : List (κ × α)) (k : κ) (v : α) (hnd : keysND m) (h : (k, v) ∈ m) :
    alookup m k = some v := by
  induction m with
  | nil => simp at h
  | cons hd tl ih =>
    obtain ⟨k0, v0⟩ := hd
    unfold keysND at hnd
    simp only [List.map_cons, List.nodup_cons] at hnd
    rcases List.mem_cons.mp h with heq | hmem
    · injection heq with h1 h2
      subst h1
      subst h2
      simp [alookup]
    · have hk0 : k0 ≠ k := by
        intro he
        subst he
        exact hnd.1 (List.mem_map.mpr ⟨(k0, v), hmem, rfl⟩)
      simp only [alookup, if_neg hk0]
      exact ih hnd.2 hmem

theorem pollStep_fold_miss (st : String) (rid : Int) (pg pa : Nat) (i : Nat)
    (p : String)
    (hm : strContains (patternStr st i rid) p = false) :
    ∀ (toR acc : List (String × ReplicaMeta)),
      alookup (toR.foldl (pollStep st rid pg pa i) acc) p = alookup acc p := by
  intro toR
  induction toR with
  | nil => intro acc; rfl
  | cons pm rest ih =>
    intro acc
    rw [List.foldl_cons, ih]
    unfold pollStep
    by_cases hc : strContains (patternStr st i rid) pm.1 = true
    · rw [if_pos hc]
      have hne : pm.1 ≠ p := fun he => by rw [he, hm] at hc; cases hc
      exact alookup_aupsert_ne acc pm.1 p _ hne
    · rw [if_neg hc]

theorem pollStep_fold_no_key (st : String) (rid : Int) (pg pa : Nat)
    (i : Nat) (p : String) :
    ∀ (toR acc : List (String × ReplicaMeta)),
      p ∉ toR.map Prod.fst →
      alookup (toR.foldl (pollStep st rid pg pa i) acc) p = alookup acc p := by
  intro toR
  induction toR with
  | nil => intro acc _; rfl
  | cons pm rest ih =>
    intro acc hk
    simp only [List.map_cons, List.mem_cons, not_or] at hk
    rw [List.foldl_cons, ih _ hk.2]
    unfold pollStep
    by_cases hc : strContains (patternStr st i rid) pm.1 = true
    · rw [if_pos hc]
      exact alookup_aupsert_ne acc pm.1 p _ (fun he => hk.1 he.symm)
    · rw [if_neg hc]

theorem pollStep_fold_hit (st : String) (rid : Int) (pg pa : Nat) (i : Nat)
    (p : String) (m0 : ReplicaMeta)
    (hc : strContains (patternStr st i rid) p = true) :
    ∀ (toR acc : List (String × ReplicaMeta)),
      (toR.map Prod.fst).Nodup → (p, m0) ∈ toR →
      alookup (toR.foldl (pollStep st rid pg pa i) acc) p =
        some (rewriteMeta m0 pg pa) := by
  intro toR
  induction toR with
  | nil => intro acc _ h; simp at h
  | cons pm rest ih =>
    intro acc hnd hmem
    simp only [List.map_cons, List.nodup_cons] at hnd
    rcases List.mem_cons.mp hmem with heq | hmem2
    · subst heq
      simp only [List.foldl_cons]
      rw [pollStep_fold_no_key st rid pg pa i p rest _ hnd.1]
      unfold pollStep
      rw [if_pos hc]
      exact alookup_aupsert_self acc p _
    · have hne : pm.1 ≠ p := by
        intro he
        exact hnd.1 (he ▸ List.mem_map.mpr ⟨(p, m0), hmem2, rfl⟩)
      rw [List.foldl_cons]
      exact ih _ hnd.2 hmem2

theorem pollSchedFold_miss (st : String) (rid : Int) (pg pa : Nat)
    (toR : List (String × ReplicaMeta)) (p : String) :
    ∀ (sched : List Nat) (acc : List (String × ReplicaMeta)),
      (∀ i ∈ sched, strContains (patternStr st i rid) p = false) →
      alookup (pollSchedFold st rid pg pa toR sched acc) p = alookup acc p := by
  intro sched
  induction sched with
  | nil => intro acc _; rfl
  | cons i rest ih =>
    intro acc h
    unfold pollSchedFold at ih ⊢
    rw [List.foldl_cons, ih _ fun j hj => h j (List.mem_cons_of_mem i hj)]
    exact pollStep_fold_miss st rid pg pa i p
      (h i (List.mem_cons_self i rest)) toR acc

theorem pollSchedFold_no_key (st : String) (rid : Int) (pg pa : Nat)
    (toR : List (String × ReplicaMeta)) (p : String)
    (hk : p ∉ toR.map Prod.fst) :
    ∀ (sched : List Nat) (acc : List (String × ReplicaMeta)),
      alookup (pollSchedFold st rid pg pa toR sched acc) p = alookup acc p := by
  intro sched
  induction sched with
  | nil => intro acc; rfl
  | cons i rest ih =>
    intro acc
    unfold pollSchedFold at ih ⊢
    rw [List.foldl_cons, ih]
    exact pollStep_fold_no_key st rid pg pa i p toR acc hk

theorem pollSchedFold_hit (st : String) (rid : Int) (pg pa : Nat)
    (toR : List (String × ReplicaMeta)) (p : String) (m0 : ReplicaMeta)
    (hnd : (toR.map Prod.fst).Nodup) (hmem : (p, m0) ∈ toR) :
    ∀ (sched : List Nat) (acc : List (String × ReplicaMeta)),
      (∃ i ∈ sched, strContains (patternStr st i rid) p = true) →
      alookup (pollSchedFold st rid pg pa toR sched acc) p =
        some (rewriteMeta m0 pg pa) := by
  intro sched
  induction sched with
  | nil =>
    intro acc h
    obtain ⟨i, hi, _⟩ := h
    cases hi
  | cons i rest ih =>
    intro acc h
    unfold pollSchedFold at ih ⊢
    rw [List.foldl_cons]
    by_cases hc : strContains (patternStr st i rid) p = true
    · by_cases hr : ∃ j ∈ rest, strContains (patternStr st j rid) p = true
      · exact ih _ hr
      · push_neg at hr
        have hall : ∀ j ∈ rest, strContains (patternStr st j rid) p = false :=
          fun j hj => Bool.eq_false_iff.mpr (hr j hj)
        rw [show List.foldl (fun acc2 j => toR.foldl (pollStep st rid pg pa j) acc2)
            (toR.foldl (pollStep st rid pg pa i) acc) rest =
            pollSchedFold st rid pg pa toR rest
              (toR.foldl (pollStep st rid pg pa i) acc) from rfl]
        rw [pollSchedFold_miss st rid pg pa toR p rest _ hall]
        exact pollStep_fold_hit st rid pg pa i p m0 hc toR acc hnd hmem
    · rcases h with ⟨j, hj, hcj⟩
      rcases List.mem_cons.mp hj with rfl | hjr
      · exact absurd hcj hc
      · exact ih _ ⟨j, hjr, hcj⟩

theorem registerSweep_preserves (zk : ZkTree) (q : String) (v : ReplicaMeta)
    (h : alookup zk q = some v) :
    ∀ need : List (String × ReplicaMeta),
      alookup (registerSweep zk need) q = some v := by
  intro need
  induction need generalizing zk with
  | nil => exact h
  | cons pm rest ih =>
    unfold registerSweep zkCreate
    by_cases he : (alookup zk pm.1).isSome
    · rw [if_pos he]
      exact ih zk h
    · rw [if_neg he]
      exact ih (zk ++ [(pm.1, pm.2)]) (alookup_append_left zk _ q v h)


/-- Claim C3, amended: during a reconciliation sweep, a disappeared path `p`
(present in the old cache snapshot, absent from the freshly listed tree) is
re-registered if and only if the f-string `/{server_type}:{i}/{replica_id}`
occurs as a *substring* of `p` for some scheduled task index `i` — which
holds for this process's own task/replica paths but also for paths whose
replica-id segment merely extends this process's replica id (e.g. id 23 when
the process's id is 2); the re-created record's four addresses are rewritten
to the portion of the stored address before its first colon plus the
configured grpc/archon port (for bracketed IPv6 addresses this truncates the
host part); a NodeExistsError during re-creation is swallowed, leaving the
existing node intact and the sweep unfailed. -/
theorem C3_substring_selection (conf : AgentConfig) (oldC newC : Cache)
    (st : String) (pg pa : Nat) (p : String) (m : ReplicaMeta)
    (hst : serverTypePorts conf = some (st, pg, pa))
    (hnd : keysND (flattenPaths oldC)) :
    (alookup (poll_need_register conf oldC newC) p = some m ↔
      ∃ m0, (p, m0) ∈ flattenPaths oldC ∧
        (∀ q ∈ flattenPaths newC, q.1 ≠ p) ∧
        (∃ i ∈ conf.schedule,
          strContains (patternStr st i conf.replica_id) p = true) ∧
        m = rewriteMeta m0 pg pa) ∧
    (∀ (zk : ZkTree) (need : List (String × ReplicaMeta)) (q : String)
      (v : ReplicaMeta),
      alookup zk q = some v → alookup (registerSweep zk need) q = some v) := by
  refine ⟨?_, fun zk need q v h => registerSweep_preserves zk q v h need⟩
  have hpoll : poll_need_register conf oldC newC =
      if (toRemovedOf oldC newC).isEmpty then []
      else pollSchedFold st conf.replica_id pg pa (toRemovedOf oldC newC)
        conf.schedule [] := by
    simp only [poll_need_register, hst]
  have hndR : ((toRemovedOf oldC newC).map Prod.fst).Nodup :=
    List.Nodup.sublist (List.Sublist.map Prod.fst (List.filter_sublist _)) hnd
  have hmemR : ∀ m0 : ReplicaMeta, (p, m0) ∈ toRemovedOf oldC newC ↔
      (p, m0) ∈ flattenPaths oldC ∧ ∀ q ∈ flattenPaths newC, q.1 ≠ p := by
    intro m0
    unfold toRemovedOf
    rw [List.mem_filter]
    constructor
    · rintro ⟨h1, h2⟩
      refine ⟨h1, ?_⟩
      intro q hq he
      simp only [Bool.not_eq_true', List.any_eq_false] at h2
      exact h2 q hq (by simp [he])
    · rintro ⟨h1, h2⟩
      refine ⟨h1, ?_⟩
      simp only [Bool.not_eq_true', List.any_eq_false]
      intro q hq
      simp only [beq_iff_eq]
      exact h2 q hq
  rw [hpoll]
  by_cases hemp : (toRemovedOf oldC newC).isEmpty = true
  · rw [if_pos hemp]
    constructor
    · intro h
      simp [alookup] at h
    · rintro ⟨m0, h1, h2, _, _⟩
      have hm : (p, m0) ∈ toRemovedOf oldC newC := (hmemR m0).mpr ⟨h1, h2⟩
      rw [List.isEmpty_iff] at hemp
      rw [hemp] at hm
      cases hm
  · rw [if_neg hemp]
    constructor
    · intro h
      by_cases hkey : p ∈ (toRemovedOf oldC newC).map Prod.fst
      · obtain ⟨pm, hpm, hfst⟩ := List.mem_map.mp hkey
        obtain ⟨p', m0⟩ := pm
        simp only at hfst
        subst hfst
        by_cases hsched : ∃ i ∈ conf.schedule,
            strContains (patternStr st i conf.replica_id) p' = true
        · rw [pollSchedFold_hit st conf.replica_id pg pa _ p' m0 hndR hpm
            conf.schedule [] hsched] at h
          injection h with h
          exact ⟨m0, ((hmemR m0).mp hpm).1, ((hmemR m0).mp hpm).2, hsched,
            h.symm⟩
        · push_neg at hsched
          have hall : ∀ i ∈ conf.schedule,
              strContains (patternStr st i conf.replica_id) p' = false :=
            fun i hi => Bool.eq_false_iff.mpr (hsched i hi)
          rw [pollSchedFold_miss st conf.replica_id pg pa _ p'
            conf.schedule [] hall] at h
          simp [alookup] at h
      · rw [pollSchedFold_no_key st conf.replica_id pg pa _ p hkey
          conf.schedule []] at h
        simp [alookup] at h
    · rintro ⟨m0, h1, h2, hsched, rfl⟩
      exact pollSchedFold_hit st conf.replica_id pg pa _ p m0 hndR
        ((hmemR m0).mpr ⟨h1, h2⟩) conf.schedule [] hsched

/-- Claim C3, counterexample: with this process's replica id 2 and scheduled
task index 1, the disappeared path `/b/service/m/ps:1/23` — whose replica id
is 23, NOT this process's 2 — is selected for re-registration, because
`'/ps:1/2' in '/b/service/m/ps:1/23'` holds as a substring test; moreover the
re-created record's bracketed IPv6 host parts are truncated to `[` by the
`split(':')[0]` rewrite, so the host parts are not kept.  Both contradict the
claim's "exactly this process's replica id" and "keeps its host parts". -/
theorem C3_counterexample :
    poll_need_register confFix [("/b/service/m/ps:1", [("23", metaAvail)])] [] =
      [("/b/service/m/ps:1/23",
        { address := "10.0.0.7:9000", address_ipv6 := "[:9000",
          archon_address := "10.0.0.7:8201", archon_address_ipv6 := "[:8201",
          stat := ModelState.AVAILABLE })] ∧
    ("23" : String) ≠ toString confFix.replica_id := by
  refine ⟨by decide, by decide⟩

/-- Closed witness for the amended C3 theorem at the concrete disappeared
path, via the iff's right-to-left direction. -/
theorem C3_witness :
    alookup (poll_need_register confFix
      [("/b/service/m/ps:1", [("23", metaAvail)])] [])
      "/b/service/m/ps:1/23" = some (rewriteMeta metaAvail 9000 8201) :=
  ((C3_substring_selection confFix
    [("/b/service/m/ps:1", [("23", metaAvail)])] [] "ps" 9000 8201
    "/b/service/m/ps:1/23" (rewriteMeta metaAvail 9000 8201)
    (by decide) (by decide)).1).mpr
    ⟨metaAvail, by decide, by decide, ⟨1, by decide, by decide⟩, rfl⟩


/-! ### Cache-equation lemmas (used by C10 and C2) -/

theorem mem_aupsert {κ α : Type} [DecidableEq κ]
    (m : List (κ × α)) (k : κ) (v : α) (pr : κ × α)
    (h : pr ∈ aupsert m k v) : pr = (k, v) ∨ pr ∈ m := by
  induction m with
  | nil => simp [aupsert] at h; simp [h]
  | cons hd tl ih =>
    obtain ⟨k0, v0⟩ := hd
    by_cases h0 : k0 = k
    · rw [show aupsert ((k0, v0) :: tl) k v = (k, v) :: tl from by
        simp [aupsert, h0]] at h
      rcases List.mem_cons.mp h with heq | hm
      · exact Or.inl heq
      · exact Or.inr (List.mem_cons_of_mem _ hm)
    · rw [show aupsert ((k0, v0) :: tl) k v = (k0, v0) :: aupsert tl k v from by
        simp [aupsert, h0]] at h
      rcases List.mem_cons.mp h with heq | hm
      · exact Or.inr (heq ▸ List.mem_cons_self _ _)
      · rcases ih hm with h1 | h1
        · exact Or.inl h1
        · exact Or.inr (List.mem_cons_of_mem _ h1)

theorem alookup_mem {κ α : Type} [DecidableEq κ]
    (m : List (κ × α)) (k : κ) (v : α) (h : alookup m k = some v) :
    (k, v) ∈ m := by
  induction m with
  | nil => simp [alookup] at h
  | cons hd tl ih =>
    obtain ⟨k0, v0⟩ := hd
    by_cases h0 : k0 = k
    · subst h0
      simp only [alookup, if_pos rfl] at h
      injection h with h
      exact h ▸ List.mem_cons_self _ _
    · simp only [alookup, if_neg h0] at h
      exact List.mem_cons_of_mem _ (ih h)

theorem cacheDelete1_eq (c : Cache) (tp r : String) (tm : TaskMap)
    (h : alookup c tp = some tm) :
    cacheDelete1 c tp r =
      if (alookup tm r).isSome = true then aupsert c tp (aerase tm r)
      else c := by
  simp only [cacheDelete1, h]

theorem cacheDelete1_none (c : Cache) (tp r : String)
    (h : alookup c tp = none) : cacheDelete1 c tp r = c := by
  simp only [cacheDelete1, h]

theorem cacheDelete2_eq (c : Cache) (tp : String) (tm : TaskMap)
    (h : alookup c tp = some tm) :
    cacheDelete2 c tp = if tm.isEmpty = true then aerase c tp else c := by
  simp only [cacheDelete2, h]

theorem cacheDelete2_none (c : Cache) (tp : String)
    (h : alookup c tp = none) : cacheDelete2 c tp = c := by
  simp only [cacheDelete2, h]

theorem alookup_isSome_iff_mem_fst {κ α : Type} [DecidableEq κ]
    (m : List (κ × α)) (k : κ) :
    (alookup m k).isSome = true ↔ k ∈ m.map Prod.fst := by
  constructor
  · intro h
    cases h2 : alookup m k with
    | none => rw [h2] at h; simp at h
    | some v => exact List.mem_map.mpr ⟨(k, v), alookup_mem m k v h2, rfl⟩
  · intro h
    cases h2 : alookup m k with
    | none => exact absurd h ((alookup_eq_none_iff m k).mp h2)
    | some v => rfl

theorem cacheGet_overwrite (c : Cache) (tp r tp2 r2 : String) (tm : TaskMap)
    (m : ReplicaMeta) (h : alookup c tp = some tm) :
    cacheGet (aupsert c tp (aupsert tm r m)) tp2 r2 =
      if tp = tp2 ∧ r = r2 then some m else cacheGet c tp2 r2 := by
  by_cases htp : tp = tp2
  · subst htp
    by_cases hr : r = r2
    · subst hr
      simp [cacheGet, alookup_aupsert_self]
    · simp [cacheGet, alookup_aupsert_self, h,
        alookup_aupsert_ne tm r r2 m hr, hr]
  · simp [cacheGet, alookup_aupsert_ne c tp tp2 _ htp, htp]

theorem cacheGet_cacheUpsert (c : Cache) (tp r tp2 r2 : String)
    (m : ReplicaMeta) :
    cacheGet (cacheUpsert c tp r m) tp2 r2 =
      if tp = tp2 ∧ r = r2 then some m else cacheGet c tp2 r2 := by
  unfold cacheUpsert
  cases h : alookup c tp with
  | some tm => exact cacheGet_overwrite c tp r tp2 r2 tm m h
  | none =>
    by_cases htp : tp = tp2
    · subst htp
      by_cases hr : r = r2
      · subst hr
        simp [cacheGet, alookup_aupsert_self, alookup]
      · simp [cacheGet, alookup_aupsert_self, h, alookup, hr]
    · simp [cacheGet, alookup_aupsert_ne c tp tp2 _ htp, htp]

theorem cacheGet_cacheDelete1 (c : Cache) (tp r tp2 r2 : String)
    (hvals : ∀ pr ∈ c, keysND pr.2) :
    cacheGet (cacheDelete1 c tp r) tp2 r2 =
      if tp = tp2 ∧ r = r2 then none else cacheGet c tp2 r2 := by
  cases h : alookup c tp with
  | none =>
    rw [cacheDelete1_none c tp r h]
    by_cases htp : tp = tp2
    · subst htp
      by_cases hr : r = r2
      · subst hr
        simp [cacheGet, h]
      · simp [hr]
    · simp [htp]
  | some tm =>
    have htmnd : keysND tm := hvals (tp, tm) (alookup_mem c tp tm h)
    rw [cacheDelete1_eq c tp r tm h]
    by_cases hin : (alookup tm r).isSome = true
    · rw [if_pos hin]
      by_cases htp : tp = tp2
      · subst htp
        by_cases hr : r = r2
        · subst hr
          simp [cacheGet, alookup_aupsert_self, alookup_aerase_self tm r htmnd]
        · simp [cacheGet, alookup_aupsert_self, h,
            alookup_aerase_ne tm r r2 hr, hr]
      · simp [cacheGet, alookup_aupsert_ne c tp tp2 _ htp, htp]
    · rw [if_neg hin]
      by_cases htp : tp = tp2
      · subst htp
        by_cases hr : r = r2
        · subst hr
          have hnone : alookup tm r = none := by
            cases h2 : alookup tm r with
            | none => rfl
            | some v => rw [h2] at hin; simp at hin
          simp [cacheGet, h, hnone]
        · simp [hr]
      · simp [htp]

theorem cacheGet_cacheDelete2 (c : Cache) (tp tp2 r2 : String)
    (hnd : keysND c) :
    cacheGet (cacheDelete2 c tp) tp2 r2 = cacheGet c tp2 r2 := by
  cases h : alookup c tp with
  | none => rw [cacheDelete2_none c tp h]
  | some tm =>
    rw [cacheDelete2_eq c tp tm h]
    by_cases hemp : tm.isEmpty = true
    · rw [if_pos hemp]
      rw [List.isEmpty_iff] at hemp
      by_cases htp : tp = tp2
      · subst htp
        simp [cacheGet, alookup_aerase_self c tp hnd, h, hemp, alookup]
      · simp [cacheGet, alookup_aerase_ne c tp tp2 htp]
    · rw [if_neg hemp]

theorem keysND_cacheDelete1 (c : Cache) (tp r : String) (hnd : keysND c) :
    keysND (cacheDelete1 c tp r) := by
  cases h : alookup c tp with
  | none => rw [cacheDelete1_none c tp r h]; exact hnd
  | some tm =>
    rw [cacheDelete1_eq c tp r tm h]
    by_cases hin : (alookup tm r).isSome = true
    · rw [if_pos hin]
      exact keysND_aupsert c tp _ hnd
    · rw [if_neg hin]
      exact hnd

theorem cacheGet_cacheDelete (c : Cache) (tp r tp2 r2 : String)
    (hnd : keysND c) (hvals : ∀ pr ∈ c, keysND pr.2) :
    cacheGet (cacheDelete c tp r) tp2 r2 =
      if tp = tp2 ∧ r = r2 then none else cacheGet c tp2 r2 := by
  unfold cacheDelete
  rw [cacheGet_cacheDelete2 _ tp tp2 r2 (keysND_cacheDelete1 c tp r hnd)]
  exact cacheGet_cacheDelete1 c tp r tp2 r2 hvals


/-! ### Claim C10: canonical replica keys -/

theorem applyEventLocked_keys (c : Cache) (tp r : String)
    (meta : ReplicaMeta) (ev : Option EventType) (c2 : Cache)
    (hnd : keysND c) (hvals : ∀ pr ∈ c, keysND pr.2)
    (h : applyEventLocked c tp r meta ev = some c2) :
    ∀ tp2 r2, (cacheGet c2 tp2 r2).isSome = true →
      (cacheGet c tp2 r2).isSome = true ∨ r2 = r := by
  intro tp2 r2 hsome
  cases ev with
  | none =>
    simp only [applyEventLocked] at h
    injection h with h
    subst h
    rw [cacheGet_cacheUpsert] at hsome
    by_cases hk : tp = tp2 ∧ r = r2
    · exact Or.inr hk.2.symm
    · rw [if_neg hk] at hsome
      exact Or.inl hsome
  | some et =>
    cases et with
    | CREATED =>
      simp only [applyEventLocked] at h
      injection h with h
      subst h
      rw [cacheGet_cacheUpsert] at hsome
      by_cases hk : tp = tp2 ∧ r = r2
      · exact Or.inr hk.2.symm
      · rw [if_neg hk] at hsome
        exact Or.inl hsome
    | DELETED =>
      simp only [applyEventLocked] at h
      injection h with h
      subst h
      rw [cacheGet_cacheDelete c tp r tp2 r2 hnd hvals] at hsome
      by_cases hk : tp = tp2 ∧ r = r2
      · rw [if_pos hk] at hsome
        simp at hsome
      · rw [if_neg hk] at hsome
        exact Or.inl hsome
    | CHANGED =>
      simp only [applyEventLocked] at h
      cases h3 : alookup c tp with
      | none => simp only [h3] at h; cases h
      | some tm =>
        simp only [h3] at h
        injection h with h
        subst h
        rw [cacheGet_overwrite c tp r tp2 r2 tm meta h3] at hsome
        by_cases hk : tp = tp2 ∧ r = r2
        · exact Or.inr hk.2.symm
        · rw [if_neg hk] at hsome
          exact Or.inl hsome
    | NONE_EV =>
      simp only [applyEventLocked] at h
      cases h3 : alookup c tp with
      | none => simp only [h3] at h; cases h
      | some tm =>
        simp only [h3] at h
        injection h with h
        subst h
        rw [cacheGet_overwrite c tp r tp2 r2 tm _ h3] at hsome
        by_cases hk : tp = tp2 ∧ r = r2
        · exact Or.inr hk.2.symm
        · rw [if_neg hk] at hsome
          exact Or.inl hsome
    | CHILD =>
      simp only [applyEventLocked] at h
      injection h with h
      subst h
      exact Or.inl hsome

theorem data_watch_keys (tp b : String) (data : Option ReplicaMeta)
    (ev : Option EventType) (c c2 : Cache) (hnd : keysND c)
    (hvals : ∀ pr ∈ c, keysND pr.2)
    (h : data_watch tp b data ev c = some c2) :
    ∀ tp2 r2, (cacheGet c2 tp2 r2).isSome = true →
      (cacheGet c tp2 r2).isSome = true ∨ r2 = canon b := by
  intro tp2 r2 hsome
  cases data with
  | some m =>
    simp only [data_watch] at h
    exact applyEventLocked_keys c tp (canon b) m ev c2 hnd hvals h tp2 r2 hsome
  | none =>
    cases h3 : alookup c tp with
    | none =>
      rw [data_watch_none_no_task c tp b ev h3] at h
      injection h with h
      subst h
      exact Or.inl hsome
    | some tm =>
      cases h4 : alookup tm (canon b) with
      | none =>
        rw [data_watch_none_no_entry c tp b tm ev h3 h4] at h
        injection h with h
        subst h
        exact Or.inl hsome
      | some m0 =>
        rw [data_watch_none_entry c tp b tm m0 ev h3 h4] at h
        have hnd2 : keysND (aupsert c tp
            (aupsert tm (canon b) { m0 with stat := ModelState.UNKNOWN })) :=
          keysND_aupsert c tp _ hnd
        have hvals2 : ∀ pr ∈ aupsert c tp
            (aupsert tm (canon b) { m0 with stat := ModelState.UNKNOWN }),
            keysND pr.2 := by
          intro pr hpr
          rcases mem_aupsert c tp _ pr hpr with rfl | hmem
          · exact keysND_aupsert tm (canon b) _
              (hvals (tp, tm) (alookup_mem c tp tm h3))
          · exact hvals pr hmem
        rcases applyEventLocked_keys _ tp (canon b) _ ev c2 hnd2 hvals2 h
            tp2 r2 hsome with hs | hb
        · rw [cacheGet_overwrite c tp (canon b) tp2 r2 tm _ h3] at hs
          by_cases hk : tp = tp2 ∧ canon b = r2
          · exact Or.inr hk.2.symm
          · rw [if_neg hk] at hs
            exact Or.inl hs
        · exact Or.inr hb

theorem mem_buildTaskMap (reps : List (String × Option ReplicaMeta)) :
    ∀ acc : TaskMap, (∀ rm ∈ acc, ∃ b, rm.1 = canon b) →
      ∀ rm ∈ reps.foldl buildTaskMapStep acc, ∃ b, rm.1 = canon b := by
  induction reps with
  | nil => intro acc hacc; exact hacc
  | cons rv rest ih =>
    intro acc hacc rm hrm
    rw [List.foldl_cons] at hrm
    refine ih (buildTaskMapStep acc rv) ?_ rm hrm
    intro rm2 hrm2
    cases h2 : rv.2 with
    | none =>
      simp only [buildTaskMapStep, h2] at hrm2
      exact hacc rm2 hrm2
    | some m =>
      simp only [buildTaskMapStep, h2] at hrm2
      rcases mem_aupsert acc (canon rv.1) m rm2 hrm2 with rfl | hmem
      · exact ⟨rv.1, rfl⟩
      · exact hacc rm2 hmem

theorem mem_buildSnapshot_canon (root : String)
    (listing : List (String × List (String × Option ReplicaMeta))) :
    ∀ acc : Cache, (∀ pr ∈ acc, ∀ rm ∈ pr.2, ∃ b, rm.1 = canon b) →
      ∀ pr ∈ listing.foldl (buildSnapshotStep root) acc,
        ∀ rm ∈ pr.2, ∃ b, rm.1 = canon b := by
  induction listing with
  | nil => intro acc hacc; exact hacc
  | cons tl rest ih =>
    intro acc hacc pr hpr
    rw [List.foldl_cons] at hpr
    refine ih (buildSnapshotStep root acc tl) ?_ pr hpr
    intro pr2 hpr2 rm hrm
    rcases mem_aupsert acc (root ++ "/" ++ tl.1) (buildTaskMap tl.2) pr2 hpr2
        with rfl | hmem
    · exact mem_buildTaskMap tl.2 [] (by intro rm2 h2; cases h2) rm hrm
    · exact hacc pr2 hmem rm hrm

/-- Claim C10: every replica key stored in the membership cache is the
canonical decimal string `str(int(b))` of the node's basename `b`.  First
conjunct: a data-watch callback only adds keys of the form `canon b` (any key
readable afterwards was readable before or is `canon b`).  Second conjunct:
every replica key in the reconciliation sweep's fresh snapshot is the
canonical form of some basename.  Third conjunct: an entry registered under
the zero-padded 11-digit name `00000000003` is cached under `"3"` and found
by `get_replica` for replica number 3 via the `int(replica_id) == replica`
comparison. -/
theorem C10_canonical_replica_keys :
    (∀ (tp b : String) (data : Option ReplicaMeta) (ev : Option EventType)
      (c c2 : Cache), keysND c → (∀ pr ∈ c, keysND pr.2) →
      data_watch tp b data ev c = some c2 →
      ∀ tp2 r2, (cacheGet c2 tp2 r2).isSome = true →
        (cacheGet c tp2 r2).isSome = true ∨ r2 = canon b) ∧
    (∀ (root : String)
      (listing : List (String × List (String × Option ReplicaMeta))),
      ∀ pr ∈ buildSnapshot root listing, ∀ rm ∈ pr.2, ∃ b, rm.1 = canon b) ∧
    (∃ c2, data_watch "/b/service/m/ps:1" "00000000003" (some metaAvail)
        none [] = some c2 ∧
      cacheGet c2 "/b/service/m/ps:1" "3" = some metaAvail ∧
      get_replica wFix c2 ServerType.PS 1 3 none none =
        some (Sum.inl "10.0.0.7:8500")) := by
  refine ⟨?_, ?_, ?_⟩
  · intro tp b data ev c c2 hnd hvals h tp2 r2 hsome
    exact data_watch_keys tp b data ev c c2 hnd hvals h tp2 r2 hsome
  · intro root listing pr hpr rm hrm
    exact mem_buildSnapshot_canon root listing [] (by intro pr2 h2; cases h2)
      pr hpr rm hrm
  · exact ⟨[("/b/service/m/ps:1", [("3", metaAvail)])], by decide, by decide,
      by decide⟩

/-- Closed witness for C10's first conjunct: delivering a payload for
basename `003` to a one-entry cache makes the key `canon "003" = "3"`
readable; the disjunction is discharged at that concrete input. -/
theorem C10_witness :
    (cacheGet [] "/b/service/m/ps:1" "3").isSome = true ∨ "3" = canon "003" :=
  C10_canonical_replica_keys.1 "/b/service/m/ps:1" "003" (some metaAvail)
    none [] [("/b/service/m/ps:1", [("3", metaAvail)])]
    (by decide) (by decide) (by decide) "/b/service/m/ps:1" "3" (by decide)


/-! ### Claim C2: invariant-preservation packages -/

theorem alookup_aupsert {κ α : Type} [DecidableEq κ]
    (m : List (κ × α)) (k k' : κ) (v : α) :
    alookup (aupsert m k v) k' = if k = k' then some v else alookup m k' := by
  by_cases h : k = k'
  · subst h
    rw [if_pos rfl]
    exact alookup_aupsert_self m k v
  · rw [if_neg h]
    exact alookup_aupsert_ne m k k' v h

theorem alookup_aerase {κ α : Type} [DecidableEq κ]
    (m : List (κ × α)) (k k' : κ) (hnd : keysND m) :
    alookup (aerase m k) k' = if k = k' then none else alookup m k' := by
  by_cases h : k = k'
  · subst h
    rw [if_pos rfl]
    exact alookup_aerase_self m k hnd
  · rw [if_neg h]
    exact alookup_aerase_ne m k k' h

theorem keysND_cacheUpsert (c : Cache) (tp r : String) (m : ReplicaMeta)
    (h : keysND c) : keysND (cacheUpsert c tp r m) := by
  unfold cacheUpsert
  cases h2 : alookup c tp with
  | some tm => exact keysND_aupsert c tp _ h
  | none => exact keysND_aupsert c tp _ h

theorem vals_keysND_cacheUpsert (c : Cache) (tp r : String) (m : ReplicaMeta)
    (hvals : ∀ pr ∈ c, keysND pr.2) :
    ∀ pr ∈ cacheUpsert c tp r m, keysND pr.2 := by
  unfold cacheUpsert
  cases h2 : alookup c tp with
  | some tm =>
    intro pr hpr
    rcases mem_aupsert c tp _ pr hpr with rfl | hmem
    · exact keysND_aupsert tm r m (hvals (tp, tm) (alookup_mem c tp tm h2))
    · exact hvals pr hmem
  | none =>
    intro pr hpr
    rcases mem_aupsert c tp _ pr hpr with rfl | hmem
    · simp [keysND]
    · exact hvals pr hmem

theorem noEmptyP_cacheUpsert (c : Cache) (tp r : String) (m : ReplicaMeta)
    (hne : noEmptyP c) : noEmptyP (cacheUpsert c tp r m) := by
  unfold cacheUpsert
  cases h2 : alookup c tp with
  | some tm =>
    intro tp2 tm2 h3
    rw [alookup_aupsert] at h3
    by_cases htp : tp = tp2
    · rw [if_pos htp] at h3
      injection h3 with h3
      rw [← h3]
      exact aupsert_ne_nil tm r m
    · rw [if_neg htp] at h3
      exact hne tp2 tm2 h3
  | none =>
    intro tp2 tm2 h3
    rw [alookup_aupsert] at h3
    by_cases htp : tp = tp2
    · rw [if_pos htp] at h3
      injection h3 with h3
      rw [← h3]
      simp
    · rw [if_neg htp] at h3
      exact hne tp2 tm2 h3

theorem mem_cacheDelete1 (c : Cache) (tp r : String) (pr : String × TaskMap)
    (h : pr ∈ cacheDelete1 c tp r) :
    pr ∈ c ∨ ∃ tm, alookup c tp = some tm ∧ pr = (tp, aerase tm r) := by
  cases h2 : alookup c tp with
  | none =>
    rw [cacheDelete1_none c tp r h2] at h
    exact Or.inl h
  | some tm =>
    rw [cacheDelete1_eq c tp r tm h2] at h
    by_cases hin : (alookup tm r).isSome = true
    · rw [if_pos hin] at h
      rcases mem_aupsert c tp _ pr h with rfl | hmem
      · exact Or.inr ⟨tm, rfl, rfl⟩
      · exact Or.inl hmem
    · rw [if_neg hin] at h
      exact Or.inl h

theorem mem_cacheDelete2 (c : Cache) (tp : String) (pr : String × TaskMap)
    (h : pr ∈ cacheDelete2 c tp) : pr ∈ c := by
  cases h2 : alookup c tp with
  | none =>
    rw [cacheDelete2_none c tp h2] at h
    exact h
  | some tm =>
    rw [cacheDelete2_eq c tp tm h2] at h
    by_cases hemp : tm.isEmpty = true
    · rw [if_pos hemp] at h
      exact (aerase_sublist c tp).subset h
    · rw [if_neg hemp] at h
      exact h

theorem keysND_cacheDelete2 (c : Cache) (tp : String) (hnd : keysND c) :
    keysND (cacheDelete2 c tp) := by
  cases h2 : alookup c tp with
  | none => rw [cacheDelete2_none c tp h2]; exact hnd
  | some tm =>
    rw [cacheDelete2_eq c tp tm h2]
    by_cases hemp : tm.isEmpty = true
    · rw [if_pos hemp]
      exact keysND_aerase c tp hnd
    · rw [if_neg hemp]
      exact hnd

theorem keysND_cacheDelete (c : Cache) (tp r : String) (hnd : keysND c) :
    keysND (cacheDelete c tp r) :=
  keysND_cacheDelete2 _ tp (keysND_cacheDelete1 c tp r hnd)

theorem vals_keysND_cacheDelete (c : Cache) (tp r : String)
    (hvals : ∀ pr ∈ c, keysND pr.2) :
    ∀ pr ∈ cacheDelete c tp r, keysND pr.2 := by
  intro pr hpr
  have h1 := mem_cacheDelete2 _ tp pr hpr
  rcases mem_cacheDelete1 c tp r pr h1 with hmem | ⟨tm, h2, rfl⟩
  · exact hvals pr hmem
  · exact keysND_aerase tm r (hvals (tp, tm) (alookup_mem c tp tm h2))

theorem noEmptyP_cacheDelete (c : Cache) (tp r : String) (hnd : keysND c)
    (hne : noEmptyP c) : noEmptyP (cacheDelete c tp r) := by
  unfold cacheDelete
  cases h2 : alookup c tp with
  | none =>
    rw [cacheDelete1_none c tp r h2]
    cases h3 : alookup c tp with
    | none => rw [cacheDelete2_none c tp h3]; exact hne
    | some tm => rw [h2] at h3; cases h3
  | some tm =>
    rw [cacheDelete1_eq c tp r tm h2]
    by_cases hin : (alookup tm r).isSome = true
    · rw [if_pos hin]
      have hc1 : alookup (aupsert c tp (aerase tm r)) tp = some (aerase tm r) :=
        alookup_aupsert_self c tp _
      rw [cacheDelete2_eq _ tp _ hc1]
      by_cases hemp : (aerase tm r).isEmpty = true
      · rw [if_pos hemp]
        intro tp2 tm2 h3
        by_cases htp : tp = tp2
        · subst htp
          rw [alookup_aerase_self _ tp (keysND_aupsert c tp _ hnd)] at h3
          cases h3
        · rw [alookup_aerase_ne _ tp tp2 htp,
            alookup_aupsert_ne c tp tp2 _ htp] at h3
          exact hne tp2 tm2 h3
      · rw [if_neg hemp]
        intro tp2 tm2 h3
        rw [alookup_aupsert] at h3
        by_cases htp : tp = tp2
        · rw [if_pos htp] at h3
          injection h3 with h3
          rw [← h3]
          intro hcon
          rw [hcon] at hemp
          simp at hemp
        · rw [if_neg htp] at h3
          exact hne tp2 tm2 h3
    · rw [if_neg hin]
      have htmne : tm ≠ [] := hne tp tm h2
      rw [cacheDelete2_eq c tp tm h2]
      have hemp : tm.isEmpty = false := by
        cases tm with
        | nil => exact absurd rfl htmne
        | cons a l => rfl
      rw [hemp]
      simp only [Bool.false_eq_true, if_false]
      exact hne


theorem inv_pack_upsert (c : Cache) (sm : NodeModel) (tp r : String)
    (m : ReplicaMeta) (hnd : keysND c) (hvals : ∀ pr ∈ c, keysND pr.2)
    (hne : noEmptyP c) (hsmnd : keysND sm)
    (hpt : ∀ tp2 r2, cacheGet c tp2 r2 = alookup sm (tp2, r2)) :
    keysND (cacheUpsert c tp r m) ∧
    (∀ pr ∈ cacheUpsert c tp r m, keysND pr.2) ∧
    noEmptyP (cacheUpsert c tp r m) ∧
    keysND (aupsert sm (tp, r) m) ∧
    (∀ tp2 r2, cacheGet (cacheUpsert c tp r m) tp2 r2 =
      alookup (aupsert sm (tp, r) m) (tp2, r2)) := by
  refine ⟨keysND_cacheUpsert c tp r m hnd, vals_keysND_cacheUpsert c tp r m hvals,
    noEmptyP_cacheUpsert c tp r m hne, keysND_aupsert sm (tp, r) m hsmnd, ?_⟩
  intro tp2 r2
  rw [cacheGet_cacheUpsert, alookup_aupsert]
  by_cases hk : tp = tp2 ∧ r = r2
  · rw [if_pos hk, if_pos (by rw [hk.1, hk.2])]
  · rw [if_neg hk, if_neg (fun hp => by
      injection hp with h1 h2
      exact hk ⟨h1, h2⟩)]
    exact hpt tp2 r2

theorem inv_step (c : Cache) (sm : NodeModel) (tp b : String)
    (payload : Option ReplicaMeta) (etype : Option EventType)
    (hnd : keysND c) (hvals : ∀ pr ∈ c, keysND pr.2) (hne : noEmptyP c)
    (hsmnd : keysND sm)
    (hpt : ∀ tp2 r2, cacheGet c tp2 r2 = alookup sm (tp2, r2))
    (hwf : wfStep sm ⟨tp, b, payload, etype⟩ = true) :
    ∃ c2, data_watch tp b payload etype c = some c2 ∧
      keysND c2 ∧ (∀ pr ∈ c2, keysND pr.2) ∧ noEmptyP c2 ∧
      keysND (nodeModelApply sm ⟨tp, b, payload, etype⟩) ∧
      (∀ tp2 r2, cacheGet c2 tp2 r2 =
        alookup (nodeModelApply sm ⟨tp, b, payload, etype⟩) (tp2, r2)) := by
  cases payload with
  | some m =>
    cases etype with
    | none =>
      refine ⟨cacheUpsert c tp (canon b) m, by
        simp only [data_watch, applyEventLocked], ?_⟩
      simpa only [nodeModelApply, specKey] using
        inv_pack_upsert c sm tp (canon b) m hnd hvals hne hsmnd hpt
    | some et =>
      cases et with
      | CREATED =>
        refine ⟨cacheUpsert c tp (canon b) m, by
          simp only [data_watch, applyEventLocked], ?_⟩
        simpa only [nodeModelApply, specKey] using
          inv_pack_upsert c sm tp (canon b) m hnd hvals hne hsmnd hpt
      | CHANGED =>
        simp only [wfStep, specKey] at hwf
        obtain ⟨v, hsm⟩ := Option.isSome_iff_exists.mp hwf
        have hcg : cacheGet c tp (canon b) = some v := by
          rw [hpt tp (canon b)]
          exact hsm
        cases h3 : alookup c tp with
        | none => unfold cacheGet at hcg; rw [h3] at hcg; cases hcg
        | some tm =>
          have hdw : data_watch tp b (some m) (some EventType.CHANGED) c =
              some (cacheUpsert c tp (canon b) m) := by
            simp only [data_watch, applyEventLocked, h3, cacheUpsert]
          refine ⟨cacheUpsert c tp (canon b) m, hdw, ?_⟩
          simpa only [nodeModelApply, specKey] using
            inv_pack_upsert c sm tp (canon b) m hnd hvals hne hsmnd hpt
      | DELETED => simp [wfStep] at hwf
      | NONE_EV => simp [wfStep] at hwf
      | CHILD => simp [wfStep] at hwf
  | none =>
    cases etype with
    | none => simp [wfStep] at hwf
    | some et =>
      cases et with
      | CREATED => simp [wfStep] at hwf
      | CHANGED => simp [wfStep] at hwf
      | NONE_EV => simp [wfStep] at hwf
      | CHILD => simp [wfStep] at hwf
      | DELETED =>
        simp only [wfStep, specKey] at hwf
        obtain ⟨v, hsm⟩ := Option.isSome_iff_exists.mp hwf
        have hcg : cacheGet c tp (canon b) = some v := by
          rw [hpt tp (canon b)]
          exact hsm
        cases h3 : alookup c tp with
        | none => unfold cacheGet at hcg; rw [h3] at hcg; cases hcg
        | some tm =>
          have h4 : alookup tm (canon b) = some v := by
            unfold cacheGet at hcg
            rw [h3] at hcg
            exact hcg
          have hdw : data_watch tp b none (some EventType.DELETED) c =
              some (cacheDelete
                (aupsert c tp (aupsert tm (canon b)
                  { v with stat := ModelState.UNKNOWN })) tp (canon b)) := by
            rw [data_watch_none_entry c tp b tm v (some EventType.DELETED) h3 h4]
            simp only [applyEventLocked]
          have hcu : cacheUpsert c tp (canon b)
              { v with stat := ModelState.UNKNOWN } =
              aupsert c tp (aupsert tm (canon b)
                { v with stat := ModelState.UNKNOWN }) := by
            simp only [cacheUpsert, h3]
          have hnd2 : keysND (aupsert c tp (aupsert tm (canon b)
              { v with stat := ModelState.UNKNOWN })) :=
            hcu ▸ keysND_cacheUpsert c tp (canon b) _ hnd
          have hvals2 : ∀ pr ∈ aupsert c tp (aupsert tm (canon b)
              { v with stat := ModelState.UNKNOWN }), keysND pr.2 :=
            hcu ▸ vals_keysND_cacheUpsert c tp (canon b) _ hvals
          have hne2 : noEmptyP (aupsert c tp (aupsert tm (canon b)
              { v with stat := ModelState.UNKNOWN })) :=
            hcu ▸ noEmptyP_cacheUpsert c tp (canon b) _ hne
          refine ⟨_, hdw, keysND_cacheDelete _ tp (canon b) hnd2,
            vals_keysND_cacheDelete _ tp (canon b) hvals2,
            noEmptyP_cacheDelete _ tp (canon b) hnd2 hne2, ?_, ?_⟩
          · simp only [nodeModelApply, specKey]
            exact keysND_aerase sm (tp, canon b) hsmnd
          · intro tp2 r2
            simp only [nodeModelApply, specKey]
            rw [cacheGet_cacheDelete _ tp (canon b) tp2 r2 hnd2 hvals2]
            rw [alookup_aerase sm (tp, canon b) (tp2, r2) hsmnd]
            by_cases hk : tp = tp2 ∧ canon b = r2
            · rw [if_pos hk, if_pos (by rw [hk.1, hk.2])]
            · rw [if_neg hk, if_neg (fun hp => by
                injection hp with h1 h2
                exact hk ⟨h1, h2⟩)]
              rw [cacheGet_overwrite c tp (canon b) tp2 r2 tm _ h3]
              rw [if_neg hk]
              exact hpt tp2 r2


theorem applyEvents_invariant (evs : List WEvent) :
    ∀ (c : Cache) (sm : NodeModel),
      keysND c → (∀ pr ∈ c, keysND pr.2) → noEmptyP c → keysND sm →
      (∀ tp r, cacheGet c tp r = alookup sm (tp, r)) →
      wfEvents sm evs = true →
      ∃ c2, applyEvents evs c = some c2 ∧
        keysND c2 ∧ (∀ pr ∈ c2, keysND pr.2) ∧ noEmptyP c2 ∧
        keysND (nodeModelRun sm evs) ∧
        (∀ tp r, cacheGet c2 tp r = alookup (nodeModelRun sm evs) (tp, r)) := by
  induction evs with
  | nil =>
    intro c sm h1 h2 h3 h4 h5 _
    exact ⟨c, rfl, h1, h2, h3, h4, h5⟩
  | cons e rest ih =>
    intro c sm h1 h2 h3 h4 h5 hwf
    simp only [wfEvents, Bool.and_eq_true] at hwf
    obtain ⟨tp, b, payload, etype⟩ := e
    obtain ⟨c2, hdw, k1, k2, k3, k4, k5⟩ :=
      inv_step c sm tp b payload etype h1 h2 h3 h4 h5 hwf.1
    obtain ⟨c3, happ, m1, m2, m3, m4, m5⟩ :=
      ih c2 (nodeModelApply sm ⟨tp, b, payload, etype⟩) k1 k2 k3 k4 k5 hwf.2
    refine ⟨c3, ?_, m1, m2, m3, ?_, ?_⟩
    · simp only [applyEvents, hdw]
      exact happ
    · simpa only [nodeModelRun, List.foldl_cons] using m4
    · simpa only [nodeModelRun, List.foldl_cons] using m5

theorem data_watch_changed_idem (c : Cache) (tp b : String)
    (m : ReplicaMeta) (tm : TaskMap) (h3 : alookup c tp = some tm) :
    (data_watch tp b (some m) (some EventType.CHANGED) c).bind
      (data_watch tp b (some m) (some EventType.CHANGED)) =
      data_watch tp b (some m) (some EventType.CHANGED) c := by
  have h1 : data_watch tp b (some m) (some EventType.CHANGED) c =
      some (aupsert c tp (aupsert tm (canon b) m)) := by
    simp only [data_watch, applyEventLocked, h3]
  rw [h1]
  rw [Option.some_bind]
  have h2 : data_watch tp b (some m) (some EventType.CHANGED)
      (aupsert c tp (aupsert tm (canon b) m)) =
      some (aupsert (aupsert c tp (aupsert tm (canon b) m)) tp
        (aupsert (aupsert tm (canon b) m) (canon b) m)) := by
    simp only [data_watch, applyEventLocked, alookup_aupsert_self]
  rw [h2, aupsert_aupsert_same tm (canon b) m m,
    aupsert_aupsert_same c tp (aupsert tm (canon b) m) (aupsert tm (canon b) m)]

/-- Claim C2: for every well-formed sequence of create/change/delete
data-watch events applied to an initially empty cache — creates (the
synthetic initial call or CREATED) hit nodes that do not currently exist and
carry the node's payload, changes hit existing nodes with their payload,
deletes hit existing nodes with None payload — no callback raises, and the
resulting cache agrees pointwise with the abstract map from
currently-existing, non-empty-payload nodes to their latest deserialized
payload; every remaining task-path key holds a nonempty replica map (the
task-path key is removed once its last replica entry is deleted); and
re-delivering a pending "changed" event twice yields the same cache as
delivering it once. -/
theorem C2_cache_matches_node_model (evs : List WEvent)
    (h : wfEvents [] evs = true) :
    ∃ c, applyEvents evs [] = some c ∧
      (∀ tp r, cacheGet c tp r = alookup (nodeModelRun [] evs) (tp, r)) ∧
      (∀ tp tm, alookup c tp = some tm → tm ≠ []) ∧
      (∀ tp b m, wfStep (nodeModelRun [] evs)
          ⟨tp, b, some m, some EventType.CHANGED⟩ = true →
        (data_watch tp b (some m) (some EventType.CHANGED) c).bind
            (data_watch tp b (some m) (some EventType.CHANGED)) =
          data_watch tp b (some m) (some EventType.CHANGED) c) := by
  obtain ⟨c, happ, k1, k2, k3, k4, k5⟩ :=
    applyEvents_invariant evs [] [] (by simp [keysND])
      (by intro pr h2; cases h2)
      (by intro tp tm h2; simp [alookup] at h2)
      (by simp [keysND])
      (by intro tp r; rfl) h
  refine ⟨c, happ, k5, k3, ?_⟩
  intro tp b m hwf
  simp only [wfStep, specKey] at hwf
  obtain ⟨v, hsm⟩ := Option.isSome_iff_exists.mp hwf
  have hcg : cacheGet c tp (canon b) = some v := by
    rw [k5 tp (canon b)]
    exact hsm
  cases h3 : alookup c tp with
  | none => unfold cacheGet at hcg; rw [h3] at hcg; cases hcg
  | some tm => exact data_watch_changed_idem c tp b m tm h3

/-- Closed witness for C2 at a concrete four-event well-formed sequence. -/
theorem C2_witness :
    ∃ c, applyEvents evsFix [] = some c ∧
      (∀ tp r, cacheGet c tp r = alookup (nodeModelRun [] evsFix) (tp, r)) ∧
      (∀ tp tm, alookup c tp = some tm → tm ≠ []) ∧
      (∀ tp b m, wfStep (nodeModelRun [] evsFix)
          ⟨tp, b, some m, some EventType.CHANGED⟩ = true →
        (data_watch tp b (some m) (some EventType.CHANGED) c).bind
            (data_watch tp b (some m) (some EventType.CHANGED)) =
          data_watch tp b (some m) (some EventType.CHANGED) c) :=
  C2_cache_matches_node_model evsFix (by decide)

end ReplicaMgr
